import Mathlib

/-!
Shallow embedding of the incremental crawl-synchronization engine of the
`scraper` repository: the `SmartScraper` strategy engine (four crawl modes),
the repository layer it reconciles against (`InsertPost` upsert /
`UpdatePost` / `PostExists` / `GetLatestHNPostID` / history recording), the
relative-time resolution of the HTML parser, and the per-source
`MultiScheduler`.

Modelling conventions:
* machine integers become `Int` / `Nat` (no overflow is relevant here);
* the database is a `Store` value threaded explicitly; SQL statements are
  translated row-by-row from `internal/database/connection.go`, and database
  transport failures are not modelled (every statement executes);
* network fetching and goquery document construction are an input
  environment `fetch : Nat → PageOutcome` giving, for each page number the
  engine asks for, either a transport failure, a document-construction
  failure, or the per-item outcomes that `Parser.parsePost` would produce;
* wall-clock fields of `ScrapingResult` (start/end/duration) and best-effort
  persistence of the result (`CreateDetailedScrapingJob`) are not modelled:
  no claim mentions them;
* a ghost `Trace` (pages fetched, record identifiers examined, count of
  visits to the dead post-parse branch of `scrapeFullArchive`) instruments
  the loops so that "never examined / never fetched / unreachable" can be
  stated; it influences nothing.
-/

namespace Scraper

/-- `models.Post`, restricted to the fields the engine reads or writes
(`HnID`, `Title`, `URL`, `Author`, `Points`, `CommentsCount`, `PostTime`);
`PostTime` is seconds since the Unix epoch. -/
structure Post where
  hnID : Int
  title : String := ""
  url : String := ""
  author : String := ""
  points : Int := 0
  commentsCount : Int := 0
  postTime : Int := 946684800
deriving Repr, DecidableEq

/-- One row of the `posts` table: internal serial `id` plus the mutable
columns the engine touches. -/
structure DBPost where
  id : Nat
  hnID : Int
  title : String
  url : String
  author : String
  points : Int
  commentsCount : Int
deriving Repr, DecidableEq

/-- The reconciliation store: the `posts` table (rows in insertion order,
`hn_id` unique), the `post_history` table (rows `(post_id, points,
comments_count)` in insertion order), and the next serial id. -/
structure Store where
  posts : List DBPost := []
  history : List (Nat × Int × Int) := []
  nextId : Nat := 1
deriving Repr, DecidableEq

/-- `Repository.PostExists`: `SELECT EXISTS(SELECT 1 FROM posts WHERE hn_id = $1)`. -/
def PostExists (st : Store) (hnID : Int) : Bool :=
  st.posts.any (fun q => q.hnID == hnID)

/-- Row lookup by `hn_id` (used by `recordPostHistory`'s `SELECT id FROM
posts WHERE hn_id = $1`). -/
def findPost (st : Store) (hnID : Int) : Option DBPost :=
  (st.posts.find? (fun q => q.hnID == hnID))

/-- `Repository.InsertPost`: `INSERT ... ON CONFLICT (hn_id) DO UPDATE SET
points, comments_count` — an upsert: on conflict only the mutable columns
are refreshed, otherwise a fresh row is appended with the next serial id.
No history row is written. -/
def InsertPost (st : Store) (p : Post) : Store :=
  if PostExists st p.hnID then
    { st with posts := st.posts.map (fun q =>
        if q.hnID == p.hnID then
          { q with points := p.points, commentsCount := p.commentsCount }
        else q) }
  else
    { st with
      posts := st.posts ++
        [⟨st.nextId, p.hnID, p.title, p.url, p.author, p.points, p.commentsCount⟩],
      nextId := st.nextId + 1 }

/-- `Repository.recordPostHistory`: resolves the internal id by `hn_id` and
appends one `post_history` row; if the row is absent the `SELECT` errors and
nothing is appended. -/
def recordPostHistory (st : Store) (hnID points comments : Int) : Store :=
  match findPost st hnID with
  | some q => { st with history := st.history ++ [(q.id, points, comments)] }
  | none => st

/-- `Repository.UpdatePost`: `UPDATE posts SET points, comments_count WHERE
hn_id = $3` (a no-op when the row is absent), then — the `Exec` having
succeeded — `recordPostHistory`. -/
def UpdatePost (st : Store) (p : Post) : Store :=
  let st1 : Store :=
    { st with posts := st.posts.map (fun q =>
        if q.hnID == p.hnID then
          { q with points := p.points, commentsCount := p.commentsCount }
        else q) }
  recordPostHistory st1 p.hnID p.points p.commentsCount

/-- `Repository.GetLatestHNPostID`: `SELECT COALESCE(MAX(hn_id), 0) FROM posts`. -/
def GetLatestHNPostID (st : Store) : Int :=
  match st.posts.map (fun q => q.hnID) with
  | [] => 0
  | x :: xs => xs.foldl max x

/-- The four values of `ScrapingMode`. -/
inductive ScrapingMode
  | latest
  | untilExisting
  | fullArchive
  | sinceLast
deriving Repr, DecidableEq

/-- `ScrapingResult` (wall-clock fields omitted, see file header). -/
structure ScrapingResult where
  mode : ScrapingMode
  pagesScraped : Nat := 0
  postsScraped : Nat := 0
  newPosts : Nat := 0
  updatedPosts : Nat := 0
  deletedPosts : Nat := 0
  lastKnownID : Int := 0
  highestIDSeen : Int := 0
  errors : List String := []
deriving Repr, DecidableEq

/-- The `HighestIDSeen` maximum update at the bottom of the `savePosts`
loop body. -/
def bumpHighest (p : Post) (res : ScrapingResult) : ScrapingResult :=
  if p.hnID > res.highestIDSeen then { res with highestIDSeen := p.hnID }
  else res

/-- `SmartScraper.savePosts`: for each record, existence check, then update
(counting `UpdatedPosts`) or insert (counting `saved` and `NewPosts`), then
the `HighestIDSeen` maximum update. Returns `saved` with the evolved store
and result. -/
def savePosts (st : Store) (res : ScrapingResult) :
    List Post → Nat × Store × ScrapingResult
  | [] => (0, st, res)
  | p :: ps =>
    if PostExists st p.hnID then
      savePosts (UpdatePost st p)
        (bumpHighest p { res with updatedPosts := res.updatedPosts + 1 }) ps
    else
      let rest := savePosts (InsertPost st p)
        (bumpHighest p { res with newPosts := res.newPosts + 1 }) ps
      (rest.1 + 1, rest.2)

/-- Outcome of `Parser.parsePost` for one `tr.athing` item: either an error
(the item is dropped after logging) or a parsed record. -/
inductive ItemParse
  | failed (msg : String)
  | parsed (p : Post)
deriving Repr, DecidableEq

/-- Outcome of asking the environment for one page: `http.Get` failure,
`goquery.NewDocumentFromReader` failure, or a document whose items parse as
given. -/
inductive PageOutcome
  | fetchFail (msg : String)
  | docFail (msg : String)
  | ok (items : List ItemParse)
deriving Repr, DecidableEq

/-- `Parser.ParseDocument`: iterate the items, log-and-drop failed ones,
keep parsed records with positive identifier, and return a nil error
unconditionally (`return posts, nil`). -/
def ParseDocument (items : List ItemParse) : List Post × Option String :=
  (items.foldl
    (fun acc it =>
      match it with
      | .failed _ => acc
      | .parsed p => if p.hnID > 0 then acc ++ [p] else acc)
    [], none)

/-- 2000-01-01T00:00:00Z in Unix seconds: the cutoff of the
`PostTime.IsZero() || PostTime.Year() < 2000` guard (Go's zero time lies far
before it). -/
def y2k : Int := 946684800

/-- The invalid-time coercion applied by `scrapePage` to each parsed record:
a pre-2000 (or zero) timestamp becomes the capture time. -/
def fixTime (now : Int) (p : Post) : Post :=
  if p.postTime < y2k then { p with postTime := now } else p

/-- `SmartScraper.scrapePage`: fetch, build the document, `ParseDocument`,
then coerce invalid timestamps. Error strings follow the `fmt.Errorf`
wrapping of the source. -/
def scrapePage (fetch : Nat → PageOutcome) (now : Int) (page : Nat) :
    Except String (List Post) :=
  match fetch page with
  | .fetchFail m => .error ("failed to fetch page: " ++ m)
  | .docFail m => .error ("failed to parse page: " ++ m)
  | .ok items =>
    match ParseDocument items with
    | (_, some m) => .error ("failed to parse page: " ++ m)
    | (posts, none) => .ok (posts.map (fixTime now))

/-- Ghost instrumentation of the page loops (proof-only; affects nothing):
pages the loop asked the environment for, record identifiers examined by a
per-record loop, and how often `scrapeFullArchive` entered its
continue-on-post-parse-error branch. -/
structure Trace where
  pagesFetched : List Nat := []
  examined : List Int := []
  postParseSkips : Nat := 0
deriving Repr, DecidableEq

/-- `SmartScraper.scrapeLatestPage`: one fetch of the configured URL,
`savePosts`, then the `PostsScraped` / `PagesScraped` updates; a page
failure is returned to `ScrapeWithStrategy` unchanged. -/
def scrapeLatestPage (fetch : Nat → PageOutcome) (now : Int) (st : Store)
    (res : ScrapingResult) : Option String × Store × ScrapingResult :=
  match scrapePage fetch now 1 with
  | .error m => (some m, st, res)
  | .ok posts =>
    let out := savePosts st res posts
    (none, out.2.1,
      { out.2.2 with
        postsScraped := out.2.2.postsScraped + out.1,
        pagesScraped := 1 })

/-- The per-record scan of one page in `scrapeSinceLast`: collect records
until the first one with identifier ≤ `lastKnownID`; report whether it was
found and which identifiers the loop examined. -/
def collectSince (lastKnownID : Int) : List Post → List Post × Bool × List Int
  | [] => ([], false, [])
  | p :: rest =>
    if p.hnID ≤ lastKnownID then ([], true, [p.hnID])
    else
      let out := collectSince lastKnownID rest
      (p :: out.1, out.2.1, p.hnID :: out.2.2)

/-- The page loop of `scrapeSinceLast` (`fuel` pages remaining, current page
number `page`): a page failure is only logged and breaks the loop; otherwise
the page's prefix of new records is accumulated, `PagesScraped` is set, and
the loop continues unless the last-known identifier was reached. -/
def sinceGo (fetch : Nat → PageOutcome) (now lastKnownID : Int) :
    Nat → Nat → List Post → ScrapingResult → Trace →
    List Post × ScrapingResult × Trace
  | 0, _, acc, res, tr => (acc, res, tr)
  | fuel + 1, page, acc, res, tr =>
    let tr := { tr with pagesFetched := tr.pagesFetched ++ [page] }
    match scrapePage fetch now page with
    | .error _ => (acc, res, tr)
    | .ok posts =>
      let c := collectSince lastKnownID posts
      let acc := acc ++ c.1
      let res := { res with pagesScraped := page }
      let tr := { tr with examined := tr.examined ++ c.2.2 }
      if c.2.1 then (acc, res, tr)
      else sinceGo fetch now lastKnownID fuel (page + 1) acc res tr

/-- `SmartScraper.scrapeSinceLast`: run the page loop, then insert every
collected record (each insert succeeds, so `PostsScraped` and `NewPosts`
count them all); the function itself always returns a nil error. -/
def scrapeSinceLast (fetch : Nat → PageOutcome) (now : Int) (st : Store)
    (res : ScrapingResult) (lastKnownID : Int) (maxPages : Nat) :
    Option String × Store × ScrapingResult × Trace :=
  let loop := sinceGo fetch now lastKnownID maxPages 1 [] res {}
  let fin := loop.1.foldl
    (fun acc p =>
      (InsertPost acc.1 p,
        { acc.2 with
          postsScraped := acc.2.postsScraped + 1,
          newPosts := acc.2.newPosts + 1 }))
    (st, loop.2.1)
  (none, fin.1, fin.2, loop.2.2)

/-- The duplicate threshold of `scrapeUntilExisting`. -/
def duplicateThreshold : Nat := 5

/-- The per-record loop of `scrapeUntilExisting` over one page's records:
an existing record bumps the running duplicate counter (reaching the
threshold stops the whole run, flag `true`); a new record resets the counter
and is inserted, bumping the page's `newPosts` and the result's `NewPosts`. -/
def untilPosts (st : Store) (res : ScrapingResult) (dup newP : Nat)
    (tr : Trace) : List Post → Store × ScrapingResult × Nat × Nat × Bool × Trace
  | [] => (st, res, dup, newP, false, tr)
  | p :: rest =>
    let tr := { tr with examined := tr.examined ++ [p.hnID] }
    if PostExists st p.hnID then
      let dup := dup + 1
      if duplicateThreshold ≤ dup then (st, res, dup, newP, true, tr)
      else untilPosts st res dup newP tr rest
    else
      untilPosts (InsertPost st p)
        { res with newPosts := res.newPosts + 1 } 0 (newP + 1) tr rest

/-- The page loop of `scrapeUntilExisting`: a page failure is appended to
the error list and breaks; two consecutive empty pages break; otherwise the
per-record loop runs (its stop flag ends the run before the page's counters
are folded in), the counters are updated, and a page with zero new inserts
breaks. -/
def untilGo (fetch : Nat → PageOutcome) (now : Int) :
    Nat → Nat → Nat → Nat → Store → ScrapingResult → Trace →
    Store × ScrapingResult × Trace
  | 0, _, _, _, st, res, tr => (st, res, tr)
  | fuel + 1, page, dup, emptyPages, st, res, tr =>
    let tr := { tr with pagesFetched := tr.pagesFetched ++ [page] }
    match scrapePage fetch now page with
    | .error m =>
      (st, { res with errors := res.errors ++ ["Page " ++ toString page ++ ": " ++ m] }, tr)
    | .ok posts =>
      if posts.isEmpty then
        let emptyPages := emptyPages + 1
        if 2 ≤ emptyPages then (st, res, tr)
        else untilGo fetch now fuel (page + 1) dup emptyPages st res tr
      else
        let step := untilPosts st res dup 0 tr posts
        let st := step.1
        let res := step.2.1
        let dup := step.2.2.1
        let newP := step.2.2.2.1
        if step.2.2.2.2.1 then (st, res, step.2.2.2.2.2)
        else
          let res :=
            { res with
              postsScraped := res.postsScraped + newP,
              pagesScraped := page }
          if newP == 0 then (st, res, step.2.2.2.2.2)
          else untilGo fetch now fuel (page + 1) dup 0 st res step.2.2.2.2.2

/-- The page loop of `scrapeFullArchive` (fetch and document construction
are inlined in the source, so their failures append distinct error strings
and break; a `ParseDocument` failure appends and continues — the dead branch
counted by `postParseSkips`; an empty page breaks; then `savePosts`, the
counters, and the stop-on-duplicate break). Note the source applies no
invalid-time coercion on this path. -/
def fullGo (fetch : Nat → PageOutcome) (stopDup : Bool) :
    Nat → Nat → Store → ScrapingResult → Trace → Store × ScrapingResult × Trace
  | 0, _, st, res, tr => (st, res, tr)
  | fuel + 1, page, st, res, tr =>
    let tr := { tr with pagesFetched := tr.pagesFetched ++ [page] }
    match fetch page with
    | .fetchFail m =>
      (st, { res with errors := res.errors ++ ["Page " ++ toString page ++ ": " ++ m] }, tr)
    | .docFail m =>
      (st, { res with errors := res.errors ++ ["Page " ++ toString page ++ " parse: " ++ m] }, tr)
    | .ok items =>
      match ParseDocument items with
      | (_, some m) =>
        fullGo fetch stopDup fuel (page + 1) st
          { res with errors := res.errors ++ ["Page " ++ toString page ++ " posts: " ++ m] }
          { tr with postParseSkips := tr.postParseSkips + 1 }
      | (posts, none) =>
        if posts.isEmpty then (st, res, tr)
        else
          let out := savePosts st res posts
          let st := out.2.1
          let res :=
            { out.2.2 with
              postsScraped := out.2.2.postsScraped + out.1,
              pagesScraped := page }
          if stopDup && out.1 == 0 then (st, res, tr)
          else fullGo fetch stopDup fuel (page + 1) st res tr

/-- `stopOnDuplicate` as set by `NewSmartScraper`. -/
def stopOnDuplicate (mode : ScrapingMode) : Bool :=
  mode == .untilExisting || mode == .sinceLast

/-- The value `ScrapeWithStrategy` produces: the returned error, the evolved
store, the `ScrapingResult`, and the ghost trace. -/
structure RunOut where
  err : Option String
  store : Store
  res : ScrapingResult
  tr : Trace
deriving Repr, DecidableEq

/-- `SmartScraper.ScrapeWithStrategy`: read the last known identifier,
initialise the result, dispatch on the mode, and return the result object
unconditionally (best-effort persistence of the result is not modelled). -/
def ScrapeWithStrategy (fetch : Nat → PageOutcome) (now : Int) (st : Store)
    (mode : ScrapingMode) (maxPages : Nat) : RunOut :=
  let lastKnownID := GetLatestHNPostID st
  let res : ScrapingResult := { mode := mode, lastKnownID := lastKnownID }
  match mode with
  | .latest =>
    let out := scrapeLatestPage fetch now st res
    ⟨out.1, out.2.1, out.2.2, {}⟩
  | .untilExisting =>
    let out := untilGo fetch now maxPages 1 0 0 st res {}
    ⟨none, out.1, out.2.1, out.2.2⟩
  | .sinceLast =>
    let out := scrapeSinceLast fetch now st res lastKnownID maxPages
    ⟨out.1, out.2.1, out.2.2.1, out.2.2.2⟩
  | .fullArchive =>
    let out := fullGo fetch (stopOnDuplicate mode) maxPages 1 st res {}
    ⟨none, out.1, out.2.1, out.2.2⟩

/-- `b` is a leading run of `l` (Go `strings.HasPrefix` over runes). -/
def listLeads : List Char → List Char → Bool
  | [], _ => true
  | _ :: _, [] => false
  | a :: ns, b :: hs => a == b && listLeads ns hs

/-- `need` occurs contiguously inside `hay` (Go `strings.Contains`). -/
def listHasSub : List Char → List Char → Bool
  | [], need => need.isEmpty
  | c :: tl, need => listLeads need (c :: tl) || listHasSub tl need

/-- Go `strings.Contains` on strings. -/
def strContains (s sub : String) : Bool :=
  listHasSub s.toList sub.toList

/-- `SmartScraper.buildPageURL`: URLs containing `news.ycombinator.com` use
the hardcoded root and `?p=N` template; all other sources use the bare
configured URL for page 1 and `?page=N` afterwards. -/
def buildPageURL (url : String) (page : Nat) : String :=
  if strContains url "news.ycombinator.com" then
    if page == 1 then "https://news.ycombinator.com/"
    else "https://news.ycombinator.com/?p=" ++ toString page
  else
    if page == 1 then url
    else url ++ "?page=" ++ toString page

/-- What `Parser.parseRelativeTime` does to `now`, symbolically: the Go code
returns either `now` itself, `now.Add` of a negative duration (here in
seconds), or `now.AddDate` moving calendar days, months or years. -/
inductive RelTime
  | now
  | secondsAgo (n : Int)
  | daysAgo (n : Int)
  | monthsAgo (n : Int)
  | yearsAgo (n : Int)
deriving Repr, DecidableEq

/-- Go `strings.TrimSpace` (ASCII whitespace suffices for the inputs here). -/
def trimWS (l : List Char) : List Char :=
  ((l.dropWhile Char.isWhitespace).reverse.dropWhile Char.isWhitespace).reverse

/-- Go `strings.TrimSuffix`. -/
def dropSuffixL (l suf : List Char) : List Char :=
  if listLeads suf.reverse l.reverse then l.take (l.length - suf.length) else l

/-- Worker for Go `strings.Fields`: split around runs of whitespace. -/
def fieldsGo : List Char → List Char → List (List Char)
  | [], acc => if acc.isEmpty then [] else [acc.reverse]
  | c :: cs, acc =>
    if c.isWhitespace then
      if acc.isEmpty then fieldsGo cs []
      else acc.reverse :: fieldsGo cs []
    else fieldsGo cs (c :: acc)

/-- Go `strings.Fields`. -/
def fieldsOf (l : List Char) : List (List Char) :=
  fieldsGo l []

/-- Decimal accumulation of a digit run; any non-digit fails. -/
def digitsValGo : List Char → Nat → Option Nat
  | [], acc => some acc
  | c :: cs, acc =>
    if c.isDigit then digitsValGo cs (acc * 10 + (c.toNat - 48)) else none

/-- Go `strconv.Atoi` for the magnitudes at play: optional sign, then a
non-empty digit run (overflow, irrelevant here, is not modelled). -/
def atoi : List Char → Option Int
  | [] => none
  | c :: cs =>
    if c == '+' then
      if cs.isEmpty then none else (digitsValGo cs 0).map (fun n => (n : Int))
    else if c == '-' then
      if cs.isEmpty then none else (digitsValGo cs 0).map (fun n => -(n : Int))
    else (digitsValGo (c :: cs) 0).map (fun n => (n : Int))

/-- `Parser.parseRelativeTime`, symbolically against `now`: lowercase and
trim, strip a trailing `" ago"`, special-case `"just now"` and
`"yesterday"`, read `value` and `unit` from the first two fields (a leading
`"a"`/`"an"` counts as 1), and dispatch on which unit word the second field
contains, defaulting to `now`. -/
def parseRelativeTime (ageText : String) : RelTime :=
  let l := trimWS (ageText.toList.map Char.toLower)
  let l := dropSuffixL l " ago".toList
  if l == "just now".toList then .now
  else if l == "yesterday".toList then .daysAgo 1
  else
    let parts := fieldsOf l
    let vu : Int × List Char :=
      match parts with
      | p0 :: p1 :: _ =>
        match atoi p0 with
        | some n => (n, p1)
        | none =>
          if p0 == ['a'] || p0 == ['a', 'n'] then ((1 : Int), p1)
          else (0, [])
      | _ => (0, [])
    let value := vu.1
    let unit := vu.2
    if listHasSub unit "second".toList then .secondsAgo value
    else if listHasSub unit "minute".toList then .secondsAgo (value * 60)
    else if listHasSub unit "hour".toList then .secondsAgo (value * 3600)
    else if listHasSub unit "day".toList then .daysAgo value
    else if listHasSub unit "week".toList then .daysAgo (value * 7)
    else if listHasSub unit "month".toList then .monthsAgo value
    else if listHasSub unit "year".toList then .yearsAgo value
    else .now

/-- The unit-word dispatch closing `parseRelativeTime` (the `switch` on
which unit word the second field contains). -/
def unitDispatch (value : Int) (unit : List Char) : RelTime :=
  if listHasSub unit "second".toList then .secondsAgo value
  else if listHasSub unit "minute".toList then .secondsAgo (value * 60)
  else if listHasSub unit "hour".toList then .secondsAgo (value * 3600)
  else if listHasSub unit "day".toList then .daysAgo value
  else if listHasSub unit "week".toList then .daysAgo (value * 7)
  else if listHasSub unit "month".toList then .monthsAgo value
  else if listHasSub unit "year".toList then .yearsAgo value
  else .now

/-- A `ScraperJob` as the scheduler state machine sees it: only the
`IsActive` flag matters (ticker and stop channel are runtime handles). -/
structure ScraperJob where
  isActive : Bool
deriving Repr, DecidableEq

/-- `MultiScheduler`: the name-keyed registry (Go map modelled as an
association list with unique keys; insertion replaces an existing key). -/
structure MultiScheduler where
  scrapers : List (String × ScraperJob) := []
deriving Repr, DecidableEq

/-- Registry lookup (`s.scrapers[name]`). -/
def lookupJob (s : MultiScheduler) (name : String) : Option ScraperJob :=
  (s.scrapers.find? (fun kv => kv.1 == name)).map (fun kv => kv.2)

/-- Go map assignment `s.scrapers[name] = job`: replace the entry if the key
is present, else append it. -/
def mapInsert (l : List (String × ScraperJob)) (name : String)
    (j : ScraperJob) : List (String × ScraperJob) :=
  if l.any (fun kv => kv.1 == name) then
    l.map (fun kv => if kv.1 == name then (name, j) else kv)
  else l ++ [(name, j)]

/-- `MultiScheduler.StartScraper` (the crawl goroutines are runtime
behaviour): reject when an active entry exists; reject when the name has no
configuration (`NewGenericScraper`); otherwise register an active job.
Returns the new state and the error, so "registry unchanged" is statable. -/
def StartScraper (cfg : String → Bool) (s : MultiScheduler) (name : String) :
    MultiScheduler × Option String :=
  if (lookupJob s name).elim false (fun j => j.isActive) then
    (s, some ("scraper " ++ name ++ " is already running"))
  else if !cfg name then
    (s, some ("failed to create scraper " ++ name))
  else
    (⟨mapInsert s.scrapers name ⟨true⟩⟩, none)

/-- `MultiScheduler.StopScraper`: reject when absent or inactive; otherwise
flag the entry inactive (the entry itself remains in the map). -/
def StopScraper (s : MultiScheduler) (name : String) :
    MultiScheduler × Option String :=
  match lookupJob s name with
  | none => (s, some ("scraper " ++ name ++ " is not running"))
  | some job =>
    if !job.isActive then (s, some ("scraper " ++ name ++ " is not running"))
    else (⟨mapInsert s.scrapers name ⟨false⟩⟩, none)

/-- `MultiScheduler.StopAll`: deactivate every active entry. -/
def StopAll (s : MultiScheduler) : MultiScheduler :=
  ⟨s.scrapers.map (fun kv => (kv.1, ⟨false⟩))⟩

/-- `MultiScheduler.IsActive`. -/
def IsActive (s : MultiScheduler) (name : String) : Bool :=
  (lookupJob s name).elim false (fun j => j.isActive)

/-- Modelled from the spec: the number of records on a page "whose score or
comment count actually changed" relative to the store — the value the spec
says `updatedPosts` reflects. Used only to compare the spec's reading of
`updatedPosts` against the code's behaviour. -/
def specChangedCount (st : Store) (ps : List Post) : Nat :=
  (ps.filter (fun p =>
    match findPost st p.hnID with
    | some q => !(q.points == p.points && q.commentsCount == p.commentsCount)
    | none => false)).length

/-- Decimal rendering of a natural number, least significant digit last
(`fuel` bounds the recursion depth; `natDecimal` supplies enough). Used to
quantify the relative-time rules over every numeral. -/
def natDecimalGo : Nat → Nat → List Char
  | 0, _ => []
  | fuel + 1, n =>
    if n < 10 then [Char.ofNat (48 + n)]
    else natDecimalGo fuel (n / 10) ++ [Char.ofNat (48 + n % 10)]

/-- Standard decimal numeral of `n` as a character list. -/
def natDecimal (n : Nat) : List Char :=
  natDecimalGo (n + 1) n

/-- A stored row with serial id `k` and identifier `k` (test fixture for the
until-existing stop conditions). -/
def c4Row (k : Nat) : DBPost := ⟨k, Int.ofNat k, "", "", "", 0, 0⟩

/-- Store holding identifiers 1–5. -/
def c4StoreA : Store := ⟨[c4Row 1, c4Row 2, c4Row 3, c4Row 4, c4Row 5], [], 6⟩

/-- Feed whose page 1 ends in two known records and page 2 opens with three
more: five consecutive duplicates across the page boundary. -/
def c4EnvA : Nat → PageOutcome := fun pg =>
  if pg == 1 then
    .ok [.parsed {hnID := 50}, .parsed {hnID := 1}, .parsed {hnID := 2}]
  else if pg == 2 then
    .ok [.parsed {hnID := 3}, .parsed {hnID := 4}, .parsed {hnID := 5},
         .parsed {hnID := 99}]
  else .fetchFail "net"

/-- Store holding identifiers 1–9. -/
def c4StoreB : Store :=
  ⟨[c4Row 1, c4Row 2, c4Row 3, c4Row 4, c4Row 5, c4Row 6, c4Row 7, c4Row 8,
    c4Row 9], [], 10⟩

/-- Feed whose page 1 carries four known records, a new one (resetting the
counter), then five more known records. -/
def c4EnvB : Nat → PageOutcome := fun pg =>
  if pg == 1 then
    .ok [.parsed {hnID := 1}, .parsed {hnID := 2}, .parsed {hnID := 3},
         .parsed {hnID := 4}, .parsed {hnID := 50}, .parsed {hnID := 5},
         .parsed {hnID := 6}, .parsed {hnID := 7}, .parsed {hnID := 8},
         .parsed {hnID := 9}, .parsed {hnID := 100}]
  else .fetchFail "net"

/-- Feed of empty pages. -/
def c4EnvC : Nat → PageOutcome := fun _ => .ok []

/-- Store holding identifiers 1–2. -/
def c4StoreD : Store := ⟨[c4Row 1, c4Row 2], [], 3⟩

/-- Feed whose page 1 holds two known records only: zero new insertions. -/
def c4EnvD : Nat → PageOutcome := fun pg =>
  if pg == 1 then .ok [.parsed {hnID := 1}, .parsed {hnID := 2}]
  else .fetchFail "net"

/-! ### Store lemmas -/

theorem posts_recordPostHistory (st : Store) (a b c : Int) :
    (recordPostHistory st a b c).posts = st.posts := by
  unfold recordPostHistory
  cases findPost st a <;> rfl

theorem history_InsertPost (st : Store) (p : Post) :
    (InsertPost st p).history = st.history := by
  unfold InsertPost
  split <;> rfl

theorem any_key_eq (l : List DBPost) (i : Int) :
    l.any (fun q => q.hnID == i) = (l.map (fun q => q.hnID)).any (fun x => x == i) := by
  induction l with
  | nil => rfl
  | cons q l ih =>
    simp only [List.any_cons, List.map_cons]
    rw [ih]

theorem PostExists_eq_keys (st : Store) (i : Int) :
    PostExists st i = (st.posts.map (fun q => q.hnID)).any (fun x => x == i) := by
  unfold PostExists
  exact any_key_eq st.posts i

theorem findPost_recordPostHistory (st : Store) (a b c i : Int) :
    findPost (recordPostHistory st a b c) i = findPost st i := by
  unfold findPost
  rw [posts_recordPostHistory]

theorem recordPostHistory_history (st : Store) (a b c : Int) :
    (recordPostHistory st a b c).history
      = st.history ++ ((findPost st a).map (fun q => (q.id, b, c))).toList := by
  unfold recordPostHistory
  cases h : findPost st a <;> simp [h]

theorem UpdatePost_eq (st : Store) (p : Post) :
    UpdatePost st p = recordPostHistory
      { st with posts := st.posts.map (fun q =>
          if q.hnID == p.hnID then
            { q with points := p.points, commentsCount := p.commentsCount }
          else q) } p.hnID p.points p.commentsCount := rfl

theorem updIf_comp_key (p : Post) (i : Int) :
    ((fun q : DBPost => q.hnID == i) ∘ (fun q : DBPost =>
        if q.hnID == p.hnID then
          { q with points := p.points, commentsCount := p.commentsCount }
        else q))
      = fun q : DBPost => q.hnID == i := by
  funext q
  show ((if q.hnID == p.hnID then _ else q).hnID == i) = (q.hnID == i)
  split <;> rfl

theorem map_updIf_keys (l : List DBPost) (p : Post) :
    ((l.map (fun q =>
        if q.hnID == p.hnID then
          { q with points := p.points, commentsCount := p.commentsCount }
        else q)).map (fun q => q.hnID))
      = l.map (fun q => q.hnID) := by
  rw [List.map_map]
  apply List.map_congr_left
  intro q _
  show (if q.hnID == p.hnID then _ else q).hnID = q.hnID
  split <;> rfl

theorem find?_updIf_ne (l : List DBPost) (p : Post) (i : Int) (hne : i ≠ p.hnID) :
    (l.map (fun q =>
        if q.hnID == p.hnID then
          { q with points := p.points, commentsCount := p.commentsCount }
        else q)).find? (fun q => q.hnID == i)
      = l.find? (fun q => q.hnID == i) := by
  rw [List.find?_map, updIf_comp_key]
  cases hfind : l.find? (fun q => q.hnID == i) with
  | none => rfl
  | some q =>
    have hq0 := List.find?_some hfind
    have hq : q.hnID = i := beq_iff_eq.mp hq0
    have hqp : (q.hnID == p.hnID) = false :=
      beq_eq_false_iff_ne.mpr (fun he => hne (hq ▸ he))
    simp only [Option.map_some', Option.some.injEq, ite_eq_right_iff]
    intro he
    exact absurd (hq ▸ beq_iff_eq.mp he) hne

theorem find?_updIf_self (l : List DBPost) (p : Post) :
    (l.map (fun q =>
        if q.hnID == p.hnID then
          { q with points := p.points, commentsCount := p.commentsCount }
        else q)).find? (fun q => q.hnID == p.hnID)
      = (l.find? (fun q => q.hnID == p.hnID)).map (fun q =>
          { q with points := p.points, commentsCount := p.commentsCount }) := by
  rw [List.find?_map, updIf_comp_key]
  cases hfind : l.find? (fun q => q.hnID == p.hnID) with
  | none => rfl
  | some q =>
    have hq0 := List.find?_some hfind
    have hq : (q.hnID == p.hnID) = true := hq0
    simp only [Option.map_some', Option.some.injEq, ite_eq_left_iff]
    intro he
    exact absurd hq he

theorem findPost_UpdatePost_self (st : Store) (p : Post) :
    findPost (UpdatePost st p) p.hnID
      = (findPost st p.hnID).map (fun q =>
          { q with points := p.points, commentsCount := p.commentsCount }) := by
  rw [UpdatePost_eq, findPost_recordPostHistory]
  exact find?_updIf_self st.posts p

theorem findPost_UpdatePost_ne (st : Store) (p : Post) (i : Int) (hne : i ≠ p.hnID) :
    findPost (UpdatePost st p) i = findPost st i := by
  rw [UpdatePost_eq, findPost_recordPostHistory]
  exact find?_updIf_ne st.posts p i hne

theorem history_UpdatePost (st : Store) (p : Post) :
    (UpdatePost st p).history
      = st.history ++
        ((findPost st p.hnID).map (fun q => (q.id, p.points, p.commentsCount))).toList := by
  rw [UpdatePost_eq, recordPostHistory_history]
  have hfind : findPost
      { st with posts := st.posts.map (fun q =>
          if q.hnID == p.hnID then
            { q with points := p.points, commentsCount := p.commentsCount }
          else q) } p.hnID
      = (findPost st p.hnID).map (fun q =>
          { q with points := p.points, commentsCount := p.commentsCount }) :=
    find?_updIf_self st.posts p
  rw [hfind]
  cases findPost st p.hnID <;> simp

theorem posts_UpdatePost_keys (st : Store) (p : Post) :
    (UpdatePost st p).posts.map (fun q => q.hnID) = st.posts.map (fun q => q.hnID) := by
  rw [UpdatePost_eq]
  rw [posts_recordPostHistory]
  exact map_updIf_keys st.posts p

theorem PostExists_UpdatePost (st : Store) (p : Post) (i : Int) :
    PostExists (UpdatePost st p) i = PostExists st i := by
  rw [PostExists_eq_keys, posts_UpdatePost_keys, ← PostExists_eq_keys]

theorem posts_InsertPost_keys (st : Store) (p : Post) :
    (InsertPost st p).posts.map (fun q => q.hnID)
      = if PostExists st p.hnID then st.posts.map (fun q => q.hnID)
        else st.posts.map (fun q => q.hnID) ++ [p.hnID] := by
  unfold InsertPost
  split
  · exact map_updIf_keys st.posts p
  · simp

theorem PostExists_InsertPost (st : Store) (p : Post) (i : Int) :
    PostExists (InsertPost st p) i = (PostExists st i || p.hnID == i) := by
  rw [PostExists_eq_keys, posts_InsertPost_keys]
  by_cases h : PostExists st p.hnID
  · rw [if_pos h, ← PostExists_eq_keys]
    by_cases hpi : p.hnID == i
    · have : PostExists st i = true := by
        rw [← beq_iff_eq.mp hpi]; exact h
      simp [this, hpi]
    · simp [hpi]
  · rw [if_neg h]
    simp [List.any_append, ← PostExists_eq_keys]

theorem findPost_InsertPost_new (st : Store) (p : Post) (h : PostExists st p.hnID = false) :
    findPost (InsertPost st p) p.hnID
      = some ⟨st.nextId, p.hnID, p.title, p.url, p.author, p.points, p.commentsCount⟩ := by
  unfold InsertPost
  rw [if_neg (by simp [h])]
  unfold findPost
  have hnone : st.posts.find? (fun q => q.hnID == p.hnID) = none := by
    rw [List.find?_eq_none]
    intro q hq hbeq
    have : PostExists st p.hnID = true := by
      unfold PostExists
      exact List.any_eq_true.mpr ⟨q, hq, hbeq⟩
    rw [h] at this
    exact Bool.noConfusion this
  simp [List.find?_append, hnone, List.find?]

theorem findPost_InsertPost_ne (st : Store) (p : Post) (i : Int) (hne : i ≠ p.hnID) :
    findPost (InsertPost st p) i = findPost st i := by
  unfold InsertPost
  split
  · exact find?_updIf_ne st.posts p i hne
  · unfold findPost
    have hrow : (((⟨st.nextId, p.hnID, p.title, p.url, p.author, p.points,
        p.commentsCount⟩ : DBPost).hnID == i)) = false :=
      beq_eq_false_iff_ne.mpr (fun he => hne he.symm)
    rw [List.find?_append]
    simp only [List.find?, hrow]
    cases st.posts.find? (fun q => q.hnID == i) <;> rfl

theorem foldl_max_init_le (xs : List Int) : ∀ x : Int, x ≤ xs.foldl max x := by
  induction xs with
  | nil => intro x; exact le_refl x
  | cons a xs ih =>
    intro x
    exact le_trans (le_max_left x a) (ih (max x a))

theorem mem_le_foldl_max (xs : List Int) :
    ∀ (x y : Int), y ∈ xs → y ≤ xs.foldl max x := by
  induction xs with
  | nil => intro x y hy; exact absurd hy (List.not_mem_nil y)
  | cons a xs ih =>
    intro x y hy
    rcases List.mem_cons.mp hy with h | h
    · subst h
      exact le_trans (le_max_right x y) (foldl_max_init_le xs (max x y))
    · exact ih (max x a) y h

theorem le_GetLatest_of_exists (st : Store) (i : Int) (h : PostExists st i = true) :
    i ≤ GetLatestHNPostID st := by
  have hmem : i ∈ st.posts.map (fun q => q.hnID) := by
    rcases List.any_eq_true.mp h with ⟨q, hq, hbeq⟩
    exact List.mem_map.mpr ⟨q, hq, beq_iff_eq.mp hbeq⟩
  unfold GetLatestHNPostID
  cases hk : st.posts.map (fun q => q.hnID) with
  | nil => rw [hk] at hmem; exact absurd hmem (List.not_mem_nil i)
  | cons x xs =>
    rw [hk] at hmem
    rcases List.mem_cons.mp hmem with h1 | h1
    · subst h1; exact foldl_max_init_le xs i
    · exact mem_le_foldl_max xs x i h1

theorem PostExists_false_of_gt (st : Store) (i : Int)
    (h : GetLatestHNPostID st < i) : PostExists st i = false := by
  cases hE : PostExists st i with
  | false => rfl
  | true => exact absurd (le_GetLatest_of_exists st i hE) (not_le.mpr h)

/-! ### savePosts lemmas -/

theorem bumpHighest_highest (p : Post) (res : ScrapingResult) :
    (bumpHighest p res).highestIDSeen = max res.highestIDSeen p.hnID := by
  unfold bumpHighest
  rcases le_or_lt p.hnID res.highestIDSeen with hle | hlt
  · rw [if_neg (not_lt.mpr hle), max_eq_left hle]
  · rw [if_pos hlt, max_eq_right (le_of_lt hlt)]

theorem bumpHighest_counters (p : Post) (res : ScrapingResult) :
    (bumpHighest p res).newPosts = res.newPosts
    ∧ (bumpHighest p res).updatedPosts = res.updatedPosts
    ∧ (bumpHighest p res).postsScraped = res.postsScraped
    ∧ (bumpHighest p res).pagesScraped = res.pagesScraped
    ∧ (bumpHighest p res).errors = res.errors
    ∧ (bumpHighest p res).lastKnownID = res.lastKnownID := by
  unfold bumpHighest
  split <;> exact ⟨rfl, rfl, rfl, rfl, rfl, rfl⟩

theorem savePosts_highest (ps : List Post) :
    ∀ (st : Store) (res : ScrapingResult),
      (savePosts st res ps).2.2.highestIDSeen
        = ps.foldl (fun m p => max m p.hnID) res.highestIDSeen := by
  induction ps with
  | nil => intro st res; rfl
  | cons p ps ih =>
    intro st res
    unfold savePosts
    rw [List.foldl_cons]
    by_cases h : PostExists st p.hnID = true
    · rw [if_pos h, ih, bumpHighest_highest]
    · rw [if_neg h, ih, bumpHighest_highest]

theorem PostExists_savePosts_mono (ps : List Post) :
    ∀ (st : Store) (res : ScrapingResult) (i : Int),
      PostExists st i = true → PostExists (savePosts st res ps).2.1 i = true := by
  induction ps with
  | nil => intro st res i h; exact h
  | cons p ps ih =>
    intro st res i h
    unfold savePosts
    by_cases he : PostExists st p.hnID = true
    · rw [if_pos he]
      exact ih _ _ i (by rw [PostExists_UpdatePost]; exact h)
    · rw [if_neg he]
      exact ih _ _ i (by rw [PostExists_InsertPost, h, Bool.true_or])

theorem PostExists_savePosts_mem (ps : List Post) :
    ∀ (st : Store) (res : ScrapingResult) (p : Post), p ∈ ps →
      PostExists (savePosts st res ps).2.1 p.hnID = true := by
  induction ps with
  | nil => intro st res p hp; exact absurd hp (List.not_mem_nil p)
  | cons q ps ih =>
    intro st res p hp
    rcases List.mem_cons.mp hp with h1 | h1
    · subst h1
      unfold savePosts
      by_cases he : PostExists st p.hnID = true
      · rw [if_pos he]
        exact PostExists_savePosts_mono ps _ _ _ (by rw [PostExists_UpdatePost]; exact he)
      · rw [if_neg he]
        exact PostExists_savePosts_mono ps _ _ _
          (by rw [PostExists_InsertPost]; simp)
    · unfold savePosts
      by_cases he : PostExists st q.hnID = true
      · rw [if_pos he]; exact ih _ _ p h1
      · rw [if_neg he]; exact ih _ _ p h1

theorem savePosts_allExist (ps : List Post) :
    ∀ (st : Store) (res : ScrapingResult),
      (∀ p ∈ ps, PostExists st p.hnID = true) →
      (savePosts st res ps).1 = 0
      ∧ (savePosts st res ps).2.2.newPosts = res.newPosts
      ∧ (savePosts st res ps).2.2.updatedPosts = res.updatedPosts + ps.length := by
  induction ps with
  | nil => intro st res _; exact ⟨rfl, rfl, rfl⟩
  | cons p ps ih =>
    intro st res hall
    have hp : PostExists st p.hnID = true := hall p (List.mem_cons_self p ps)
    unfold savePosts
    rw [if_pos hp]
    have hrest : ∀ q ∈ ps, PostExists (UpdatePost st p) q.hnID = true := by
      intro q hq
      rw [PostExists_UpdatePost]
      exact hall q (List.mem_cons_of_mem p hq)
    rcases ih (UpdatePost st p)
        (bumpHighest p { res with updatedPosts := res.updatedPosts + 1 }) hrest
      with ⟨h1, h2, h3⟩
    refine ⟨h1, ?_, ?_⟩
    · rw [h2, (bumpHighest_counters p _).1]
    · rw [h3, (bumpHighest_counters p _).2.1]
      show res.updatedPosts + 1 + ps.length = res.updatedPosts + (ps.length + 1)
      omega

/-! ### since-last lemmas -/

theorem collectSince_found (K : Int) (b : Post) (rest : List Post) :
    ∀ a : List Post, (∀ p ∈ a, K < p.hnID) → b.hnID ≤ K →
      collectSince K (a ++ b :: rest)
        = (a, true, a.map (fun p => p.hnID) ++ [b.hnID]) := by
  intro a
  induction a with
  | nil =>
    intro _ hb
    simp only [List.nil_append, collectSince, if_pos hb]
    rfl
  | cons p a ih =>
    intro ha hb
    have hp : K < p.hnID := ha p (List.mem_cons_self p a)
    simp only [List.cons_append, collectSince, if_neg (not_le.mpr hp), List.append_eq]
    rw [ih (fun q hq => ha q (List.mem_cons_of_mem p hq)) hb]
    simp

theorem sinceFold_preserve (a : List Post) :
    ∀ (st : Store) (res : ScrapingResult),
      (a.foldl (fun acc p =>
          (InsertPost acc.1 p,
            { acc.2 with
              postsScraped := acc.2.postsScraped + 1,
              newPosts := acc.2.newPosts + 1 })) (st, res)).2.highestIDSeen
        = res.highestIDSeen
      ∧ (a.foldl (fun acc p =>
          (InsertPost acc.1 p,
            { acc.2 with
              postsScraped := acc.2.postsScraped + 1,
              newPosts := acc.2.newPosts + 1 })) (st, res)).2.updatedPosts
        = res.updatedPosts
      ∧ (a.foldl (fun acc p =>
          (InsertPost acc.1 p,
            { acc.2 with
              postsScraped := acc.2.postsScraped + 1,
              newPosts := acc.2.newPosts + 1 })) (st, res)).2.errors
        = res.errors
      ∧ (a.foldl (fun acc p =>
          (InsertPost acc.1 p,
            { acc.2 with
              postsScraped := acc.2.postsScraped + 1,
              newPosts := acc.2.newPosts + 1 })) (st, res)).2.pagesScraped
        = res.pagesScraped
      ∧ (a.foldl (fun acc p =>
          (InsertPost acc.1 p,
            { acc.2 with
              postsScraped := acc.2.postsScraped + 1,
              newPosts := acc.2.newPosts + 1 })) (st, res)).2.lastKnownID
        = res.lastKnownID := by
  induction a with
  | nil => intro st res; exact ⟨rfl, rfl, rfl, rfl, rfl⟩
  | cons p a ih =>
    intro st res
    simp only [List.foldl_cons]
    exact ih _ _

theorem sinceFold_counts (a : List Post) :
    ∀ (st : Store) (res : ScrapingResult),
      (∀ p ∈ a, PostExists st p.hnID = false) →
      (a.map (fun p => p.hnID)).Nodup →
      (a.foldl (fun acc p =>
          (InsertPost acc.1 p,
            { acc.2 with
              postsScraped := acc.2.postsScraped + 1,
              newPosts := acc.2.newPosts + 1 })) (st, res)).1.posts.map (fun q => q.hnID)
        = st.posts.map (fun q => q.hnID) ++ a.map (fun p => p.hnID)
      ∧ (a.foldl (fun acc p =>
          (InsertPost acc.1 p,
            { acc.2 with
              postsScraped := acc.2.postsScraped + 1,
              newPosts := acc.2.newPosts + 1 })) (st, res)).1.history
        = st.history
      ∧ (a.foldl (fun acc p =>
          (InsertPost acc.1 p,
            { acc.2 with
              postsScraped := acc.2.postsScraped + 1,
              newPosts := acc.2.newPosts + 1 })) (st, res)).2.postsScraped
        = res.postsScraped + a.length
      ∧ (a.foldl (fun acc p =>
          (InsertPost acc.1 p,
            { acc.2 with
              postsScraped := acc.2.postsScraped + 1,
              newPosts := acc.2.newPosts + 1 })) (st, res)).2.newPosts
        = res.newPosts + a.length := by
  induction a with
  | nil => intro st res _ _; exact ⟨by simp, rfl, rfl, rfl⟩
  | cons p a ih =>
    intro st res hnew hnd
    have hp : PostExists st p.hnID = false := hnew p (List.mem_cons_self p a)
    have hkeys : (InsertPost st p).posts.map (fun q => q.hnID)
        = st.posts.map (fun q => q.hnID) ++ [p.hnID] := by
      rw [posts_InsertPost_keys, if_neg (by simp [hp])]
    have hnd' : (a.map (fun p => p.hnID)).Nodup := (List.nodup_cons.mp hnd).2
    have hpnot : p.hnID ∉ a.map (fun p => p.hnID) := (List.nodup_cons.mp hnd).1
    have hnew' : ∀ q ∈ a, PostExists (InsertPost st p) q.hnID = false := by
      intro q hq
      rw [PostExists_InsertPost, hnew q (List.mem_cons_of_mem p hq), Bool.false_or]
      exact beq_eq_false_iff_ne.mpr
        (fun he => hpnot (he ▸ List.mem_map.mpr ⟨q, hq, rfl⟩))
    simp only [List.foldl_cons]
    rcases ih (InsertPost st p)
      { res with postsScraped := res.postsScraped + 1, newPosts := res.newPosts + 1 }
      hnew' hnd' with ⟨h1, h2, h3, h4⟩
    refine ⟨?_, ?_, ?_, ?_⟩
    · rw [h1, hkeys]
      simp [List.append_assoc]
    · rw [h2, history_InsertPost]
    · rw [h3]
      show res.postsScraped + 1 + a.length = res.postsScraped + (a.length + 1)
      omega
    · rw [h4]
      show res.newPosts + 1 + a.length = res.newPosts + (a.length + 1)
      omega

theorem sinceGo_highest (fetch : Nat -> PageOutcome) (now K : Int) :
    ∀ (fuel page : Nat) (acc : List Post) (res : ScrapingResult) (tr : Trace),
      (sinceGo fetch now K fuel page acc res tr).2.1.highestIDSeen = res.highestIDSeen
      ∧ (sinceGo fetch now K fuel page acc res tr).2.1.newPosts = res.newPosts
      ∧ (sinceGo fetch now K fuel page acc res tr).2.1.updatedPosts = res.updatedPosts
      ∧ (sinceGo fetch now K fuel page acc res tr).2.1.errors = res.errors
      ∧ (sinceGo fetch now K fuel page acc res tr).2.1.postsScraped = res.postsScraped
      ∧ (sinceGo fetch now K fuel page acc res tr).2.1.lastKnownID = res.lastKnownID := by
  intro fuel
  induction fuel with
  | zero =>
    intro page acc res tr
    refine ⟨?_, ?_, ?_, ?_, ?_, ?_⟩ <;> rfl
  | succ fuel ih =>
    intro page acc res tr
    unfold sinceGo
    cases scrapePage fetch now page with
    | error m => refine ⟨?_, ?_, ?_, ?_, ?_, ?_⟩ <;> rfl
    | ok posts =>
      cases hfound : (collectSince K posts).2.1 with
      | true => simp [hfound]
      | false => simp only [hfound]; simp only [Bool.false_eq_true, if_false]; exact ih _ _ _ _

/-! ### until-existing lemmas -/

theorem untilPosts_nil (st : Store) (res : ScrapingResult) (dup newP : Nat)
    (tr : Trace) : untilPosts st res dup newP tr [] = (st, res, dup, newP, false, tr) := rfl

theorem untilPosts_cons (st : Store) (res : ScrapingResult) (dup newP : Nat)
    (tr : Trace) (p : Post) (rest : List Post) :
    untilPosts st res dup newP tr (p :: rest)
      = if PostExists st p.hnID then
          (if duplicateThreshold ≤ dup + 1 then
            (st, res, dup + 1, newP, true,
              { tr with examined := tr.examined ++ [p.hnID] })
          else untilPosts st res (dup + 1) newP
            { tr with examined := tr.examined ++ [p.hnID] } rest)
        else untilPosts (InsertPost st p)
          { res with newPosts := res.newPosts + 1 } 0 (newP + 1)
          { tr with examined := tr.examined ++ [p.hnID] } rest := rfl

theorem untilPosts_allDup_noStop (l : List Post) :
    ∀ (st : Store) (res : ScrapingResult) (dup newP : Nat) (tr : Trace),
      (∀ p ∈ l, PostExists st p.hnID = true) →
      dup + l.length < duplicateThreshold →
      untilPosts st res dup newP tr l
        = (st, res, dup + l.length, newP, false,
           { tr with examined := tr.examined ++ l.map (fun p => p.hnID) }) := by
  induction l with
  | nil => intro st res dup newP tr _ _; simp [untilPosts_nil]
  | cons p l ih =>
    intro st res dup newP tr hall hlt
    have hp : PostExists st p.hnID = true := hall p (List.mem_cons_self p l)
    unfold untilPosts
    rw [if_pos hp]
    rw [if_neg (by simp only [List.length_cons] at hlt; omega)]
    rw [ih st res (dup + 1) newP _ (fun q hq => hall q (List.mem_cons_of_mem p hq))
      (by simp only [List.length_cons] at hlt; omega)]
    simp only [List.length_cons, List.map_cons, Prod.mk.injEq, List.append_assoc,
      List.singleton_append, true_and, and_true]
    omega

theorem untilPosts_dupStop (rest : List Post) (l : List Post) :
    ∀ (st : Store) (res : ScrapingResult) (dup newP : Nat) (tr : Trace),
      (∀ p ∈ l, PostExists st p.hnID = true) →
      dup + l.length = duplicateThreshold →
      l ≠ [] →
      untilPosts st res dup newP tr (l ++ rest)
        = (st, res, duplicateThreshold, newP, true,
           { tr with examined := tr.examined ++ l.map (fun p => p.hnID) }) := by
  induction l with
  | nil => intro st res dup newP tr _ _ hne; exact absurd rfl hne
  | cons p l ih =>
    intro st res dup newP tr hall hsum _
    have hp : PostExists st p.hnID = true := hall p (List.mem_cons_self p l)
    rw [List.cons_append]
    unfold untilPosts
    rw [if_pos hp]
    by_cases hl : l = []
    · subst hl
      have h5 : duplicateThreshold ≤ dup + 1 := by
        simp only [List.length_cons, List.length_nil] at hsum; omega
      rw [if_pos h5]
      have hd : dup + 1 = duplicateThreshold := by
        simp only [List.length_cons, List.length_nil] at hsum; omega
      rw [hd]
      simp
    · have hlen : 1 ≤ l.length := by
        cases l with
        | nil => exact absurd rfl hl
        | cons a b => simp
      rw [if_neg (by simp only [List.length_cons] at hsum; omega)]
      rw [ih st res (dup + 1) newP _ (fun q hq => hall q (List.mem_cons_of_mem p hq))
        (by simp only [List.length_cons] at hsum; omega) hl]
      simp [List.append_assoc]

theorem untilPosts_allNew (l : List Post) :
    ∀ (st : Store) (res : ScrapingResult) (dup newP : Nat) (tr : Trace),
      (∀ p ∈ l, PostExists st p.hnID = false) →
      (l.map (fun p => p.hnID)).Nodup →
      untilPosts st res dup newP tr l
        = (l.foldl InsertPost st,
           { res with newPosts := res.newPosts + l.length },
           (if l.isEmpty then dup else 0),
           newP + l.length, false,
           { tr with examined := tr.examined ++ l.map (fun p => p.hnID) }) := by
  induction l with
  | nil => intro st res dup newP tr _ _; simp [untilPosts_nil]
  | cons p l ih =>
    intro st res dup newP tr hnew hnd
    have hp : PostExists st p.hnID = false := hnew p (List.mem_cons_self p l)
    have hnd' : (l.map (fun p => p.hnID)).Nodup := (List.nodup_cons.mp hnd).2
    have hpnot : p.hnID ∉ l.map (fun p => p.hnID) := (List.nodup_cons.mp hnd).1
    have hnew' : ∀ q ∈ l, PostExists (InsertPost st p) q.hnID = false := by
      intro q hq
      rw [PostExists_InsertPost, hnew q (List.mem_cons_of_mem p hq), Bool.false_or]
      exact beq_eq_false_iff_ne.mpr
        (fun he => hpnot (he ▸ List.mem_map.mpr ⟨q, hq, rfl⟩))
    unfold untilPosts
    rw [if_neg (by simp [hp])]
    rw [ih (InsertPost st p) { res with newPosts := res.newPosts + 1 } 0 (newP + 1)
      _ hnew' hnd']
    simp only [List.foldl_cons, List.length_cons, List.isEmpty_cons, List.map_cons,
      Prod.mk.injEq, List.append_assoc, List.singleton_append, true_and, and_true]
    refine ⟨?_, ?_, ?_⟩
    · have harith : res.newPosts + 1 + l.length = res.newPosts + (l.length + 1) := by
        omega
      rw [harith]
    · simp
    · omega

theorem untilPosts_append (l1 l2 : List Post) :
    ∀ (st : Store) (res : ScrapingResult) (dup newP : Nat) (tr : Trace),
      (untilPosts st res dup newP tr l1).2.2.2.2.1 = false →
      untilPosts st res dup newP tr (l1 ++ l2)
        = untilPosts (untilPosts st res dup newP tr l1).1
            (untilPosts st res dup newP tr l1).2.1
            (untilPosts st res dup newP tr l1).2.2.1
            (untilPosts st res dup newP tr l1).2.2.2.1
            (untilPosts st res dup newP tr l1).2.2.2.2.2 l2 := by
  induction l1 with
  | nil => intro st res dup newP tr _; rfl
  | cons p l1 ih =>
    intro st res dup newP tr hstop
    by_cases hp : PostExists st p.hnID = true
    · by_cases h5 : duplicateThreshold ≤ dup + 1
      · exfalso
        rw [untilPosts_cons, if_pos hp, if_pos h5] at hstop
        simp at hstop
      · have e1 : untilPosts st res dup newP tr (p :: l1)
            = untilPosts st res (dup + 1) newP
                { tr with examined := tr.examined ++ [p.hnID] } l1 := by
          rw [untilPosts_cons, if_pos hp, if_neg h5]
        have e2 : untilPosts st res dup newP tr ((p :: l1) ++ l2)
            = untilPosts st res (dup + 1) newP
                { tr with examined := tr.examined ++ [p.hnID] } (l1 ++ l2) := by
          rw [List.cons_append, untilPosts_cons, if_pos hp, if_neg h5]
        rw [e2, e1]
        rw [e1] at hstop
        exact ih _ _ _ _ _ hstop
    · have e1 : untilPosts st res dup newP tr (p :: l1)
          = untilPosts (InsertPost st p)
              { res with newPosts := res.newPosts + 1 } 0 (newP + 1)
              { tr with examined := tr.examined ++ [p.hnID] } l1 := by
        rw [untilPosts_cons, if_neg hp]
      have e2 : untilPosts st res dup newP tr ((p :: l1) ++ l2)
          = untilPosts (InsertPost st p)
              { res with newPosts := res.newPosts + 1 } 0 (newP + 1)
              { tr with examined := tr.examined ++ [p.hnID] } (l1 ++ l2) := by
        rw [List.cons_append, untilPosts_cons, if_neg hp]
      rw [e2, e1]
      rw [e1] at hstop
      exact ih _ _ _ _ _ hstop

theorem untilPosts_highest (l : List Post) :
    ∀ (st : Store) (res : ScrapingResult) (dup newP : Nat) (tr : Trace),
      (untilPosts st res dup newP tr l).2.1.highestIDSeen = res.highestIDSeen
      ∧ (untilPosts st res dup newP tr l).2.1.updatedPosts = res.updatedPosts
      ∧ (untilPosts st res dup newP tr l).2.1.errors = res.errors
      ∧ (untilPosts st res dup newP tr l).2.1.lastKnownID = res.lastKnownID := by
  induction l with
  | nil => intro st res dup newP tr; exact ⟨rfl, rfl, rfl, rfl⟩
  | cons p l ih =>
    intro st res dup newP tr
    unfold untilPosts
    by_cases hp : PostExists st p.hnID = true
    · rw [if_pos hp]
      by_cases h5 : duplicateThreshold ≤ dup + 1
      · rw [if_pos h5]; exact ⟨rfl, rfl, rfl, rfl⟩
      · rw [if_neg h5]; exact ih _ _ _ _ _
    · rw [if_neg hp]
      exact ih _ _ _ _ _

theorem untilGo_err (fetch : Nat -> PageOutcome) (now : Int)
    (fuel page dup emptyPages : Nat) (st : Store) (res : ScrapingResult)
    (tr : Trace) (m : String) (h : scrapePage fetch now page = .error m) :
    untilGo fetch now (fuel + 1) page dup emptyPages st res tr
      = (st,
         { res with errors := res.errors ++ ["Page " ++ toString page ++ ": " ++ m] },
         { tr with pagesFetched := tr.pagesFetched ++ [page] }) := by
  conv_lhs => rw [untilGo]
  rw [h]

theorem untilGo_ok (fetch : Nat -> PageOutcome) (now : Int)
    (fuel page dup emptyPages : Nat) (st : Store) (res : ScrapingResult)
    (tr : Trace) (posts : List Post) (h : scrapePage fetch now page = .ok posts) :
    untilGo fetch now (fuel + 1) page dup emptyPages st res tr
      = (if posts.isEmpty = true then
          (if 2 ≤ emptyPages + 1 then
            (st, res, { tr with pagesFetched := tr.pagesFetched ++ [page] })
          else untilGo fetch now fuel (page + 1) dup (emptyPages + 1) st res
            { tr with pagesFetched := tr.pagesFetched ++ [page] })
        else
          (if (untilPosts st res dup 0
                { tr with pagesFetched := tr.pagesFetched ++ [page] } posts).2.2.2.2.1 = true then
            ((untilPosts st res dup 0
                { tr with pagesFetched := tr.pagesFetched ++ [page] } posts).1,
             (untilPosts st res dup 0
                { tr with pagesFetched := tr.pagesFetched ++ [page] } posts).2.1,
             (untilPosts st res dup 0
                { tr with pagesFetched := tr.pagesFetched ++ [page] } posts).2.2.2.2.2)
          else if ((untilPosts st res dup 0
                { tr with pagesFetched := tr.pagesFetched ++ [page] } posts).2.2.2.1 == 0) = true then
            ((untilPosts st res dup 0
                { tr with pagesFetched := tr.pagesFetched ++ [page] } posts).1,
             { (untilPosts st res dup 0
                  { tr with pagesFetched := tr.pagesFetched ++ [page] } posts).2.1 with
               postsScraped := (untilPosts st res dup 0
                  { tr with pagesFetched := tr.pagesFetched ++ [page] } posts).2.1.postsScraped
                 + (untilPosts st res dup 0
                    { tr with pagesFetched := tr.pagesFetched ++ [page] } posts).2.2.2.1,
               pagesScraped := page },
             (untilPosts st res dup 0
                { tr with pagesFetched := tr.pagesFetched ++ [page] } posts).2.2.2.2.2)
          else untilGo fetch now fuel (page + 1)
            (untilPosts st res dup 0
                { tr with pagesFetched := tr.pagesFetched ++ [page] } posts).2.2.1 0
            (untilPosts st res dup 0
                { tr with pagesFetched := tr.pagesFetched ++ [page] } posts).1
            { (untilPosts st res dup 0
                  { tr with pagesFetched := tr.pagesFetched ++ [page] } posts).2.1 with
              postsScraped := (untilPosts st res dup 0
                  { tr with pagesFetched := tr.pagesFetched ++ [page] } posts).2.1.postsScraped
                + (untilPosts st res dup 0
                    { tr with pagesFetched := tr.pagesFetched ++ [page] } posts).2.2.2.1,
              pagesScraped := page }
            (untilPosts st res dup 0
                { tr with pagesFetched := tr.pagesFetched ++ [page] } posts).2.2.2.2.2)) := by
  conv_lhs => rw [untilGo]
  rw [h]

theorem untilGo_highest (fetch : Nat -> PageOutcome) (now : Int) :
    ∀ (fuel page dup emptyPages : Nat) (st : Store) (res : ScrapingResult) (tr : Trace),
      (untilGo fetch now fuel page dup emptyPages st res tr).2.1.highestIDSeen
        = res.highestIDSeen
      ∧ (untilGo fetch now fuel page dup emptyPages st res tr).2.1.updatedPosts
        = res.updatedPosts
      ∧ (untilGo fetch now fuel page dup emptyPages st res tr).2.1.lastKnownID
        = res.lastKnownID := by
  intro fuel
  induction fuel with
  | zero => intro page dup emptyPages st res tr; exact ⟨rfl, rfl, rfl⟩
  | succ fuel ih =>
    intro page dup emptyPages st res tr
    cases hs : scrapePage fetch now page with
    | error m =>
      rw [untilGo_err fetch now fuel page dup emptyPages st res tr m hs]
      exact ⟨rfl, rfl, rfl⟩
    | ok posts =>
      rw [untilGo_ok fetch now fuel page dup emptyPages st res tr posts hs]
      rcases untilPosts_highest posts st res dup 0
        { tr with pagesFetched := tr.pagesFetched ++ [page] } with ⟨hh, hu, _, hk⟩
      by_cases hemp : posts.isEmpty = true
      · rw [if_pos hemp]
        by_cases h2 : 2 ≤ emptyPages + 1
        · rw [if_pos h2]; exact ⟨rfl, rfl, rfl⟩
        · rw [if_neg h2]; exact ih _ _ _ _ _ _
      · rw [if_neg hemp]
        by_cases hstop : (untilPosts st res dup 0
            { tr with pagesFetched := tr.pagesFetched ++ [page] } posts).2.2.2.2.1 = true
        · rw [if_pos hstop]
          exact ⟨hh, hu, hk⟩
        · rw [if_neg hstop]
          by_cases hz : ((untilPosts st res dup 0
              { tr with pagesFetched := tr.pagesFetched ++ [page] } posts).2.2.2.1 == 0) = true
          · rw [if_pos hz]
            exact ⟨hh, hu, hk⟩
          · rw [if_neg hz]
            rcases ih (page + 1)
              (untilPosts st res dup 0
                { tr with pagesFetched := tr.pagesFetched ++ [page] } posts).2.2.1 0
              (untilPosts st res dup 0
                { tr with pagesFetched := tr.pagesFetched ++ [page] } posts).1
              { (untilPosts st res dup 0
                    { tr with pagesFetched := tr.pagesFetched ++ [page] } posts).2.1 with
                postsScraped := (untilPosts st res dup 0
                    { tr with pagesFetched := tr.pagesFetched ++ [page] } posts).2.1.postsScraped
                  + (untilPosts st res dup 0
                      { tr with pagesFetched := tr.pagesFetched ++ [page] } posts).2.2.2.1,
                pagesScraped := page }
              (untilPosts st res dup 0
                { tr with pagesFetched := tr.pagesFetched ++ [page] } posts).2.2.2.2.2
              with ⟨ihh, ihu, ihk⟩
            rw [ihh, ihu, ihk]
            exact ⟨hh, hu, hk⟩

/-! ### sinceGo / fullGo equations -/

theorem sinceGo_err (fetch : Nat -> PageOutcome) (now K : Int)
    (fuel page : Nat) (acc : List Post) (res : ScrapingResult) (tr : Trace)
    (m : String) (h : scrapePage fetch now page = .error m) :
    sinceGo fetch now K (fuel + 1) page acc res tr
      = (acc, res, { tr with pagesFetched := tr.pagesFetched ++ [page] }) := by
  conv_lhs => rw [sinceGo]
  rw [h]

theorem sinceGo_ok (fetch : Nat -> PageOutcome) (now K : Int)
    (fuel page : Nat) (acc : List Post) (res : ScrapingResult) (tr : Trace)
    (posts : List Post) (h : scrapePage fetch now page = .ok posts) :
    sinceGo fetch now K (fuel + 1) page acc res tr
      = (if (collectSince K posts).2.1 = true then
          (acc ++ (collectSince K posts).1,
           { res with pagesScraped := page },
           ⟨tr.pagesFetched ++ [page],
            tr.examined ++ (collectSince K posts).2.2, tr.postParseSkips⟩)
        else sinceGo fetch now K fuel (page + 1) (acc ++ (collectSince K posts).1)
          { res with pagesScraped := page }
          ⟨tr.pagesFetched ++ [page],
           tr.examined ++ (collectSince K posts).2.2, tr.postParseSkips⟩) := by
  conv_lhs => rw [sinceGo]
  rw [h]

theorem fullGo_err (fetch : Nat -> PageOutcome) (stopDup : Bool)
    (fuel page : Nat) (st : Store) (res : ScrapingResult) (tr : Trace)
    (m : String) (h : fetch page = .fetchFail m) :
    fullGo fetch stopDup (fuel + 1) page st res tr
      = (st,
         { res with errors := res.errors ++ ["Page " ++ toString page ++ ": " ++ m] },
         { tr with pagesFetched := tr.pagesFetched ++ [page] }) := by
  conv_lhs => rw [fullGo]
  rw [h]

theorem fullGo_doc (fetch : Nat -> PageOutcome) (stopDup : Bool)
    (fuel page : Nat) (st : Store) (res : ScrapingResult) (tr : Trace)
    (m : String) (h : fetch page = .docFail m) :
    fullGo fetch stopDup (fuel + 1) page st res tr
      = (st,
         { res with errors := res.errors ++ ["Page " ++ toString page ++ " parse: " ++ m] },
         { tr with pagesFetched := tr.pagesFetched ++ [page] }) := by
  conv_lhs => rw [fullGo]
  rw [h]

/-- `ParseDocument` never reports an error (the second component is `none`
by construction). -/
theorem ParseDocument_err_none (items : List ItemParse) :
    (ParseDocument items).2 = none := rfl

theorem fullGo_skips (fetch : Nat -> PageOutcome) (stopDup : Bool) :
    ∀ (fuel page : Nat) (st : Store) (res : ScrapingResult) (tr : Trace),
      (fullGo fetch stopDup fuel page st res tr).2.2.postParseSkips
        = tr.postParseSkips := by
  intro fuel
  induction fuel with
  | zero => intro page st res tr; rfl
  | succ fuel ih =>
    intro page st res tr
    unfold fullGo
    cases fetch page with
    | fetchFail m => rfl
    | docFail m => rfl
    | ok items =>
      simp only [ParseDocument]
      split
      · rfl
      · split
        · rfl
        · exact ih _ _ _ _

/-! ### engine dispatch equations and preservation lemmas -/

theorem SWS_latest_eq (fetch : Nat -> PageOutcome) (now : Int) (st : Store)
    (maxPages : Nat) :
    ScrapeWithStrategy fetch now st .latest maxPages
      = ⟨(scrapeLatestPage fetch now st
            { mode := .latest, lastKnownID := GetLatestHNPostID st }).1,
         (scrapeLatestPage fetch now st
            { mode := .latest, lastKnownID := GetLatestHNPostID st }).2.1,
         (scrapeLatestPage fetch now st
            { mode := .latest, lastKnownID := GetLatestHNPostID st }).2.2,
         {}⟩ := rfl

theorem SWS_until_eq (fetch : Nat -> PageOutcome) (now : Int) (st : Store)
    (maxPages : Nat) :
    ScrapeWithStrategy fetch now st .untilExisting maxPages
      = ⟨none,
         (untilGo fetch now maxPages 1 0 0 st
            { mode := .untilExisting, lastKnownID := GetLatestHNPostID st } {}).1,
         (untilGo fetch now maxPages 1 0 0 st
            { mode := .untilExisting, lastKnownID := GetLatestHNPostID st } {}).2.1,
         (untilGo fetch now maxPages 1 0 0 st
            { mode := .untilExisting, lastKnownID := GetLatestHNPostID st } {}).2.2⟩ := rfl

theorem SWS_since_eq (fetch : Nat -> PageOutcome) (now : Int) (st : Store)
    (maxPages : Nat) :
    ScrapeWithStrategy fetch now st .sinceLast maxPages
      = ⟨(scrapeSinceLast fetch now st
            { mode := .sinceLast, lastKnownID := GetLatestHNPostID st }
            (GetLatestHNPostID st) maxPages).1,
         (scrapeSinceLast fetch now st
            { mode := .sinceLast, lastKnownID := GetLatestHNPostID st }
            (GetLatestHNPostID st) maxPages).2.1,
         (scrapeSinceLast fetch now st
            { mode := .sinceLast, lastKnownID := GetLatestHNPostID st }
            (GetLatestHNPostID st) maxPages).2.2.1,
         (scrapeSinceLast fetch now st
            { mode := .sinceLast, lastKnownID := GetLatestHNPostID st }
            (GetLatestHNPostID st) maxPages).2.2.2⟩ := rfl

theorem SWS_full_eq (fetch : Nat -> PageOutcome) (now : Int) (st : Store)
    (maxPages : Nat) :
    ScrapeWithStrategy fetch now st .fullArchive maxPages
      = ⟨none,
         (fullGo fetch (stopOnDuplicate .fullArchive) maxPages 1 st
            { mode := .fullArchive, lastKnownID := GetLatestHNPostID st } {}).1,
         (fullGo fetch (stopOnDuplicate .fullArchive) maxPages 1 st
            { mode := .fullArchive, lastKnownID := GetLatestHNPostID st } {}).2.1,
         (fullGo fetch (stopOnDuplicate .fullArchive) maxPages 1 st
            { mode := .fullArchive, lastKnownID := GetLatestHNPostID st } {}).2.2⟩ := rfl

theorem scrapeSinceLast_eq (fetch : Nat -> PageOutcome) (now : Int) (st : Store)
    (res : ScrapingResult) (K : Int) (maxPages : Nat) :
    scrapeSinceLast fetch now st res K maxPages
      = (none,
         ((sinceGo fetch now K maxPages 1 [] res {}).1.foldl
            (fun acc p =>
              (InsertPost acc.1 p,
                { acc.2 with
                  postsScraped := acc.2.postsScraped + 1,
                  newPosts := acc.2.newPosts + 1 }))
            (st, (sinceGo fetch now K maxPages 1 [] res {}).2.1)).1,
         ((sinceGo fetch now K maxPages 1 [] res {}).1.foldl
            (fun acc p =>
              (InsertPost acc.1 p,
                { acc.2 with
                  postsScraped := acc.2.postsScraped + 1,
                  newPosts := acc.2.newPosts + 1 }))
            (st, (sinceGo fetch now K maxPages 1 [] res {}).2.1)).2,
         (sinceGo fetch now K maxPages 1 [] res {}).2.2) := rfl

theorem scrapeLatestPage_err (fetch : Nat -> PageOutcome) (now : Int)
    (st : Store) (res : ScrapingResult) (m : String)
    (h : scrapePage fetch now 1 = .error m) :
    scrapeLatestPage fetch now st res = (some m, st, res) := by
  unfold scrapeLatestPage
  rw [h]

theorem scrapeLatestPage_ok (fetch : Nat -> PageOutcome) (now : Int)
    (st : Store) (res : ScrapingResult) (ps : List Post)
    (h : scrapePage fetch now 1 = .ok ps) :
    scrapeLatestPage fetch now st res
      = (none, (savePosts st res ps).2.1,
         { (savePosts st res ps).2.2 with
           postsScraped := (savePosts st res ps).2.2.postsScraped
             + (savePosts st res ps).1,
           pagesScraped := 1 }) := by
  unfold scrapeLatestPage
  rw [h]

theorem PostExists_foldl_insert_mono (l : List Post) :
    ∀ (st : Store) (i : Int), PostExists st i = true →
      PostExists (l.foldl InsertPost st) i = true := by
  induction l with
  | nil => intro st i h; exact h
  | cons p l ih =>
    intro st i h
    rw [List.foldl_cons]
    exact ih _ _ (by rw [PostExists_InsertPost, h, Bool.true_or])

theorem savePosts_preserve (ps : List Post) :
    ∀ (st : Store) (res : ScrapingResult),
      (savePosts st res ps).2.2.lastKnownID = res.lastKnownID
      ∧ (savePosts st res ps).2.2.errors = res.errors
      ∧ (savePosts st res ps).2.2.pagesScraped = res.pagesScraped
      ∧ (savePosts st res ps).2.2.postsScraped = res.postsScraped
      ∧ (savePosts st res ps).2.2.mode = res.mode := by
  induction ps with
  | nil => intro st res; exact ⟨rfl, rfl, rfl, rfl, rfl⟩
  | cons p ps ih =>
    intro st res
    unfold savePosts
    by_cases h : PostExists st p.hnID = true
    · rw [if_pos h]
      rcases ih (UpdatePost st p)
        (bumpHighest p { res with updatedPosts := res.updatedPosts + 1 }) with
        ⟨h1, h2, h3, h4, h5⟩
      rw [h1, h2, h3, h4, h5]
      unfold bumpHighest
      split <;> exact ⟨rfl, rfl, rfl, rfl, rfl⟩
    · rw [if_neg h]
      rcases ih (InsertPost st p)
        (bumpHighest p { res with newPosts := res.newPosts + 1 }) with
        ⟨h1, h2, h3, h4, h5⟩
      rw [h1, h2, h3, h4, h5]
      unfold bumpHighest
      split <;> exact ⟨rfl, rfl, rfl, rfl, rfl⟩

theorem findPost_savePosts_ne (ps : List Post) :
    ∀ (st : Store) (res : ScrapingResult) (i : Int),
      (∀ q ∈ ps, q.hnID ≠ i) →
      findPost (savePosts st res ps).2.1 i = findPost st i := by
  induction ps with
  | nil => intro st res i _; rfl
  | cons p ps ih =>
    intro st res i hne
    have hp : p.hnID ≠ i := hne p (List.mem_cons_self p ps)
    have hi : i ≠ p.hnID := fun he => hp he.symm
    unfold savePosts
    by_cases h : PostExists st p.hnID = true
    · rw [if_pos h, ih _ _ i (fun q hq => hne q (List.mem_cons_of_mem p hq)),
        findPost_UpdatePost_ne st p i hi]
    · rw [if_neg h, ih _ _ i (fun q hq => hne q (List.mem_cons_of_mem p hq)),
        findPost_InsertPost_ne st p i hi]

theorem PostExists_eq_isSome (st : Store) (i : Int) :
    PostExists st i = (findPost st i).isSome := by
  unfold PostExists findPost
  cases hf : st.posts.find? (fun q => q.hnID == i) with
  | none =>
    rw [List.find?_eq_none] at hf
    cases ha : st.posts.any (fun q => q.hnID == i) with
    | false => rfl
    | true =>
      rcases List.any_eq_true.mp ha with ⟨q, hq, hbeq⟩
      exact absurd hbeq (hf q hq)
  | some q =>
    have := List.find?_some hf
    have hmem := List.mem_of_find?_eq_some hf
    rw [List.any_eq_true.mpr ⟨q, hmem, this⟩]
    rfl

/-! ### scheduler lemmas -/

theorem mapInsert_keys_mem (l : List (String × ScraperJob)) (name : String)
    (j : ScraperJob) (h : l.any (fun kv => kv.1 == name) = true) :
    (mapInsert l name j).map Prod.fst = l.map Prod.fst := by
  unfold mapInsert
  rw [if_pos h, List.map_map]
  apply List.map_congr_left
  intro kv _
  show Prod.fst (if kv.1 == name then (name, j) else kv) = kv.1
  by_cases hk : (kv.1 == name) = true
  · rw [if_pos hk]
    exact (beq_iff_eq.mp hk).symm
  · rw [if_neg hk]

theorem mapInsert_keys_new (l : List (String × ScraperJob)) (name : String)
    (j : ScraperJob) (h : l.any (fun kv => kv.1 == name) = false) :
    (mapInsert l name j).map Prod.fst = l.map Prod.fst ++ [name] := by
  unfold mapInsert
  rw [if_neg (by simp [h])]
  simp

theorem nodup_mapInsert (l : List (String × ScraperJob)) (name : String)
    (j : ScraperJob) (h : (l.map Prod.fst).Nodup) :
    ((mapInsert l name j).map Prod.fst).Nodup := by
  cases ha : l.any (fun kv => kv.1 == name) with
  | true => rw [mapInsert_keys_mem l name j ha]; exact h
  | false =>
    rw [mapInsert_keys_new l name j ha]
    rw [List.nodup_append]
    refine ⟨h, List.nodup_singleton name, ?_⟩
    intro x hx hx2
    rcases List.mem_map.mp hx with ⟨kv, hkv, hfst⟩
    have : (kv.1 == name) = false := by
      rw [List.any_eq_false] at ha
      exact Bool.eq_false_iff.mpr (fun hb => (ha kv hkv) hb)
    rw [List.mem_singleton] at hx2
    rw [hx2] at hfst
    exact absurd (beq_iff_eq.mpr hfst) (by rw [this]; exact Bool.false_ne_true)

theorem countP_le_one_of_nodup (l : List (String × ScraperJob)) (name : String)
    (h : (l.map Prod.fst).Nodup) :
    l.countP (fun kv => kv.1 == name) ≤ 1 := by
  induction l with
  | nil => simp
  | cons kv l ih =>
    rw [List.map_cons, List.nodup_cons] at h
    by_cases hk : (kv.1 == name) = true
    · rw [List.countP_cons, if_pos hk]
      have hz : l.countP (fun kv => kv.1 == name) = 0 := by
        rw [List.countP_eq_zero]
        intro kv2 hkv2 hb
        have he2 : kv2.1 = name := beq_iff_eq.mp hb
        have he1 : kv.1 = name := beq_iff_eq.mp hk
        exact h.1 (List.mem_map.mpr ⟨kv2, hkv2, he2.trans he1.symm⟩)
      omega
    · rw [List.countP_cons, if_neg hk]
      have := ih h.2
      omega

theorem filterMap_congr_mem {α β : Type} (l : List α) (f g : α → Option β)
    (h : ∀ a ∈ l, f a = g a) : l.filterMap f = l.filterMap g := by
  induction l with
  | nil => rfl
  | cons a l ih =>
    rw [List.filterMap_cons, List.filterMap_cons,
      h a (List.mem_cons_self a l),
      ih (fun b hb => h b (List.mem_cons_of_mem a hb))]

theorem until_twoEmpty (fetch : Nat → PageOutcome) (now : Int) (st : Store)
    (maxPages : Nat)
    (hmax : 2 ≤ maxPages)
    (h1 : scrapePage fetch now 1 = .ok [])
    (h2 : scrapePage fetch now 2 = .ok []) :
    (ScrapeWithStrategy fetch now st .untilExisting maxPages).tr.pagesFetched = [1, 2]
    ∧ (ScrapeWithStrategy fetch now st .untilExisting maxPages).res.newPosts = 0
    ∧ (ScrapeWithStrategy fetch now st .untilExisting maxPages).tr.examined = [] := by
  obtain ⟨k, rfl⟩ : ∃ k, maxPages = k + 1 + 1 := ⟨maxPages - 2, by omega⟩
  rw [SWS_until_eq]
  rw [untilGo_ok (h := h1)]
  rw [if_pos (show ([] : List Post).isEmpty = true from rfl)]
  rw [if_neg (show ¬(2 ≤ 0 + 1) by omega)]
  have h2a : scrapePage fetch now (1 + 1) = .ok [] := h2
  rw [untilGo_ok (h := h2a)]
  rw [if_pos (show ([] : List Post).isEmpty = true from rfl)]
  rw [if_pos (show 2 ≤ 0 + 1 + 1 by omega)]
  exact ⟨rfl, rfl, rfl⟩

theorem until_zeroNew (fetch : Nat → PageOutcome) (now : Int) (st : Store)
    (maxPages : Nat) (g1 g2 : Post)
    (hmax : 2 ≤ maxPages)
    (h1 : scrapePage fetch now 1 = .ok [g1, g2])
    (hg1 : PostExists st g1.hnID = true)
    (hg2 : PostExists st g2.hnID = true) :
    (ScrapeWithStrategy fetch now st .untilExisting maxPages).tr.pagesFetched = [1]
    ∧ (ScrapeWithStrategy fetch now st .untilExisting maxPages).res.newPosts = 0
    ∧ (ScrapeWithStrategy fetch now st .untilExisting maxPages).res.pagesScraped = 1
    ∧ (ScrapeWithStrategy fetch now st .untilExisting maxPages).tr.examined
      = [g1.hnID, g2.hnID] := by
  obtain ⟨k, rfl⟩ : ∃ k, maxPages = k + 1 + 1 := ⟨maxPages - 2, by omega⟩
  rw [SWS_until_eq]
  rw [untilGo_ok (h := h1)]
  rw [if_neg (show ¬(([g1, g2] : List Post).isEmpty = true) by simp)]
  have hP : ∀ tr : Trace, untilPosts st
      { mode := .untilExisting, lastKnownID := GetLatestHNPostID st } 0 0 tr [g1, g2]
      = (st, { mode := .untilExisting, lastKnownID := GetLatestHNPostID st },
         0 + 2, 0, false,
         { tr with examined := tr.examined ++ [g1.hnID, g2.hnID] }) := by
    intro tr
    rw [untilPosts_allDup_noStop [g1, g2] st
      { mode := .untilExisting, lastKnownID := GetLatestHNPostID st } 0 0 tr
      (by
        intro p hp
        rcases List.mem_cons.mp hp with hc | hc
        · subst hc; exact hg1
        · rcases List.mem_cons.mp hc with hc2 | hc2
          · subst hc2; exact hg2
          · exact absurd hc2 (List.not_mem_nil p))
      (by show 0 + ([g1, g2] : List Post).length < duplicateThreshold
          simp [duplicateThreshold])]
    rfl
  rw [hP]
  dsimp only
  rw [if_neg (show ¬(false = true) by simp)]
  rw [if_pos (show (((0 : Nat) == 0) = true) from rfl)]
  exact ⟨rfl, rfl, rfl, rfl⟩

theorem until_resetThenFive (fetch : Nat → PageOutcome) (now : Int) (st : Store)
    (maxPages : Nat) (e1 e2 e3 e4 n f1 f2 f3 f4 f5 : Post) (rest : List Post)
    (hmax : 1 ≤ maxPages)
    (h1 : scrapePage fetch now 1
      = .ok (e1 :: e2 :: e3 :: e4 :: n :: f1 :: f2 :: f3 :: f4 :: f5 :: rest))
    (he1 : PostExists st e1.hnID = true) (he2 : PostExists st e2.hnID = true)
    (he3 : PostExists st e3.hnID = true) (he4 : PostExists st e4.hnID = true)
    (hn : PostExists st n.hnID = false)
    (hf1 : PostExists st f1.hnID = true) (hf2 : PostExists st f2.hnID = true)
    (hf3 : PostExists st f3.hnID = true) (hf4 : PostExists st f4.hnID = true)
    (hf5 : PostExists st f5.hnID = true) :
    (ScrapeWithStrategy fetch now st .untilExisting maxPages).tr.pagesFetched = [1]
    ∧ (ScrapeWithStrategy fetch now st .untilExisting maxPages).res.newPosts = 1
    ∧ (ScrapeWithStrategy fetch now st .untilExisting maxPages).res.pagesScraped = 0
    ∧ (ScrapeWithStrategy fetch now st .untilExisting maxPages).tr.examined
      = [e1.hnID, e2.hnID, e3.hnID, e4.hnID, n.hnID,
         f1.hnID, f2.hnID, f3.hnID, f4.hnID, f5.hnID] := by
  obtain ⟨k, rfl⟩ : ∃ k, maxPages = k + 1 := ⟨maxPages - 1, by omega⟩
  have hgf1 : PostExists (InsertPost st n) f1.hnID = true := by
    rw [PostExists_InsertPost, hf1, Bool.true_or]
  have hgf2 : PostExists (InsertPost st n) f2.hnID = true := by
    rw [PostExists_InsertPost, hf2, Bool.true_or]
  have hgf3 : PostExists (InsertPost st n) f3.hnID = true := by
    rw [PostExists_InsertPost, hf3, Bool.true_or]
  have hgf4 : PostExists (InsertPost st n) f4.hnID = true := by
    rw [PostExists_InsertPost, hf4, Bool.true_or]
  have hgf5 : PostExists (InsertPost st n) f5.hnID = true := by
    rw [PostExists_InsertPost, hf5, Bool.true_or]
  rw [SWS_until_eq]
  rw [untilGo_ok (h := h1)]
  rw [if_neg (show ¬((e1 :: e2 :: e3 :: e4 :: n :: f1 :: f2 :: f3 :: f4 :: f5 :: rest).isEmpty = true) by simp)]
  have hP : ∀ tr : Trace, untilPosts st
      { mode := .untilExisting, lastKnownID := GetLatestHNPostID st } 0 0 tr
      (e1 :: e2 :: e3 :: e4 :: n :: f1 :: f2 :: f3 :: f4 :: f5 :: rest)
      = (InsertPost st n,
         { mode := .untilExisting, lastKnownID := GetLatestHNPostID st, newPosts := 1 },
         duplicateThreshold, 1, true,
         { tr with examined := tr.examined ++ [e1.hnID] ++ [e2.hnID] ++ [e3.hnID]
             ++ [e4.hnID] ++ [n.hnID] ++ [f1.hnID] ++ [f2.hnID] ++ [f3.hnID]
             ++ [f4.hnID] ++ [f5.hnID] }) := by
    intro tr
    rw [untilPosts_cons, if_pos he1, if_neg (by decide)]
    rw [untilPosts_cons, if_pos he2, if_neg (by decide)]
    rw [untilPosts_cons, if_pos he3, if_neg (by decide)]
    rw [untilPosts_cons, if_pos he4, if_neg (by decide)]
    rw [untilPosts_cons, if_neg (by rw [hn]; exact Bool.false_ne_true)]
    rw [untilPosts_cons, if_pos hgf1, if_neg (by decide)]
    rw [untilPosts_cons, if_pos hgf2, if_neg (by decide)]
    rw [untilPosts_cons, if_pos hgf3, if_neg (by decide)]
    rw [untilPosts_cons, if_pos hgf4, if_neg (by decide)]
    rw [untilPosts_cons, if_pos hgf5, if_pos (by decide)]
    rfl
  rw [hP]
  dsimp only
  rw [if_pos (show (true = true) from rfl)]
  refine ⟨rfl, rfl, rfl, ?_⟩
  simp [List.append_assoc]

theorem until_fiveAcrossPages (fetch : Nat → PageOutcome) (now : Int) (st : Store)
    (maxPages : Nat) (pre : List Post) (d1 d2 d3 d4 d5 : Post) (rest2 : List Post)
    (hmax : 2 ≤ maxPages)
    (h1 : scrapePage fetch now 1 = .ok (pre ++ [d1, d2]))
    (h2 : scrapePage fetch now 2 = .ok (d3 :: d4 :: d5 :: rest2))
    (hpre_new : ∀ p ∈ pre, PostExists st p.hnID = false)
    (hpre_nd : (pre.map (fun p => p.hnID)).Nodup)
    (hpre_ne : pre ≠ [])
    (hd1 : PostExists st d1.hnID = true) (hd2 : PostExists st d2.hnID = true)
    (hd3 : PostExists st d3.hnID = true) (hd4 : PostExists st d4.hnID = true)
    (hd5 : PostExists st d5.hnID = true) :
    (ScrapeWithStrategy fetch now st .untilExisting maxPages).tr.pagesFetched = [1, 2]
    ∧ (ScrapeWithStrategy fetch now st .untilExisting maxPages).res.newPosts
      = pre.length
    ∧ (ScrapeWithStrategy fetch now st .untilExisting maxPages).tr.examined
      = pre.map (fun p => p.hnID)
        ++ [d1.hnID, d2.hnID, d3.hnID, d4.hnID, d5.hnID] := by
  obtain ⟨k, rfl⟩ : ∃ k, maxPages = k + 1 + 1 := ⟨maxPages - 2, by omega⟩
  have hd1s : PostExists (pre.foldl InsertPost st) d1.hnID = true :=
    PostExists_foldl_insert_mono pre st d1.hnID hd1
  have hd2s : PostExists (pre.foldl InsertPost st) d2.hnID = true :=
    PostExists_foldl_insert_mono pre st d2.hnID hd2
  have hd3s : PostExists (pre.foldl InsertPost st) d3.hnID = true :=
    PostExists_foldl_insert_mono pre st d3.hnID hd3
  have hd4s : PostExists (pre.foldl InsertPost st) d4.hnID = true :=
    PostExists_foldl_insert_mono pre st d4.hnID hd4
  have hd5s : PostExists (pre.foldl InsertPost st) d5.hnID = true :=
    PostExists_foldl_insert_mono pre st d5.hnID hd5
  rw [SWS_until_eq]
  rw [untilGo_ok (h := h1)]
  rw [if_neg (show ¬((pre ++ [d1, d2]).isEmpty = true) by cases pre <;> simp)]
  have hP1 : ∀ tr : Trace, untilPosts st
      { mode := .untilExisting, lastKnownID := GetLatestHNPostID st } 0 0 tr
      (pre ++ [d1, d2])
      = (pre.foldl InsertPost st,
         { mode := .untilExisting, lastKnownID := GetLatestHNPostID st,
           newPosts := pre.length },
         2, pre.length, false,
         { tr with examined := ((tr.examined ++ pre.map (fun p => p.hnID))
             ++ [d1.hnID]) ++ [d2.hnID] }) := by
    intro tr
    rw [untilPosts_append pre [d1, d2] st
      { mode := .untilExisting, lastKnownID := GetLatestHNPostID st } 0 0 tr
      (by rw [untilPosts_allNew pre st
          { mode := .untilExisting, lastKnownID := GetLatestHNPostID st }
          0 0 tr hpre_new hpre_nd])]
    rw [untilPosts_allNew pre st
      { mode := .untilExisting, lastKnownID := GetLatestHNPostID st }
      0 0 tr hpre_new hpre_nd]
    dsimp only
    rw [ite_self]
    rw [untilPosts_cons, if_pos hd1s, if_neg (by decide)]
    rw [untilPosts_cons, if_pos hd2s, if_neg (by decide)]
    rw [untilPosts_nil]
    simp only [Nat.zero_add]
  rw [hP1]
  dsimp only
  rw [if_neg (show ¬(false = true) by simp)]
  have hlen : ((pre.length == 0) = true) → False := by
    intro hc
    have := beq_iff_eq.mp hc
    cases pre with
    | nil => exact hpre_ne rfl
    | cons a b => simp at this
  rw [if_neg hlen]
  have h2a : scrapePage fetch now (1 + 1) = .ok (d3 :: d4 :: d5 :: rest2) := h2
  rw [untilGo_ok (h := h2a)]
  rw [if_neg (show ¬((d3 :: d4 :: d5 :: rest2).isEmpty = true) by simp)]
  have hP2 : ∀ (res2 : ScrapingResult) (tr2 : Trace),
      untilPosts (pre.foldl InsertPost st) res2 2 0 tr2 (d3 :: d4 :: d5 :: rest2)
      = (pre.foldl InsertPost st, res2, 5, 0, true,
         { tr2 with examined := ((tr2.examined ++ [d3.hnID]) ++ [d4.hnID])
             ++ [d5.hnID] }) := by
    intro res2 tr2
    rw [untilPosts_cons, if_pos hd3s, if_neg (by decide)]
    rw [untilPosts_cons, if_pos hd4s, if_neg (by decide)]
    rw [untilPosts_cons, if_pos hd5s, if_pos (by decide)]
  rw [hP2]
  dsimp only
  rw [if_pos (show (true = true) from rfl)]
  refine ⟨rfl, rfl, ?_⟩
  simp [List.append_assoc]

/-! ### relative-time lemmas -/

theorem digitChar_facts (k : Nat) (h : k < 10) :
    (Char.ofNat (48 + k)).isDigit = true ∧
    (Char.ofNat (48 + k)).isWhitespace = false ∧
    Char.toLower (Char.ofNat (48 + k)) = Char.ofNat (48 + k) ∧
    (Char.ofNat (48 + k)).toNat = 48 + k ∧
    (Char.ofNat (48 + k) == '+') = false ∧
    (Char.ofNat (48 + k) == '-') = false ∧
    (Char.ofNat (48 + k) == 'j') = false ∧
    (Char.ofNat (48 + k) == 'y') = false := by
  interval_cases k <;> decide

theorem natDecimalGo_ne_nil (fuel n : Nat) : natDecimalGo (fuel + 1) n ≠ [] := by
  rw [natDecimalGo]
  by_cases h : n < 10
  · rw [if_pos h]; simp
  · rw [if_neg h]; simp

theorem natDecimal_ne_nil (n : Nat) : natDecimal n ≠ [] :=
  natDecimalGo_ne_nil n n

theorem natDecimalGo_mem (fuel : Nat) :
    ∀ n c, c ∈ natDecimalGo fuel n → ∃ k, k < 10 ∧ c = Char.ofNat (48 + k) := by
  induction fuel with
  | zero => intro n c hc; simp [natDecimalGo] at hc
  | succ fuel ih =>
    intro n c hc
    rw [natDecimalGo] at hc
    by_cases h : n < 10
    · rw [if_pos h] at hc
      simp at hc
      exact ⟨n, h, hc⟩
    · rw [if_neg h] at hc
      rcases List.mem_append.mp hc with h1 | h2
      · exact ih _ _ h1
      · simp at h2
        exact ⟨n % 10, Nat.mod_lt _ (by omega), h2⟩

theorem natDecimal_mem (n : Nat) :
    ∀ c ∈ natDecimal n, c.isDigit = true ∧ c.isWhitespace = false ∧
      Char.toLower c = c ∧ (c == '+') = false ∧ (c == '-') = false ∧
      (c == 'j') = false ∧ (c == 'y') = false := by
  intro c hc
  obtain ⟨k, hk, rfl⟩ := natDecimalGo_mem (n + 1) n c hc
  have hf := digitChar_facts k hk
  exact ⟨hf.1, hf.2.1, hf.2.2.1, hf.2.2.2.2.1, hf.2.2.2.2.2.1,
    hf.2.2.2.2.2.2.1, hf.2.2.2.2.2.2.2⟩

theorem digitsValGo_append (a b : List Char) :
    ∀ acc, digitsValGo (a ++ b) acc
      = (digitsValGo a acc).bind (fun m => digitsValGo b m) := by
  induction a with
  | nil => intro acc; rfl
  | cons c cs ih =>
    intro acc
    show (if c.isDigit then digitsValGo (cs ++ b) (acc * 10 + (c.toNat - 48))
          else none)
      = (if c.isDigit then digitsValGo cs (acc * 10 + (c.toNat - 48))
          else none).bind (fun m => digitsValGo b m)
    by_cases h : c.isDigit
    · rw [if_pos h, if_pos h, ih]
    · rw [if_neg h, if_neg h]; rfl

theorem natDecimalGo_val (fuel : Nat) :
    ∀ n acc, n < fuel →
      ∃ e, digitsValGo (natDecimalGo fuel n) acc = some (acc * 10 ^ e + n) := by
  induction fuel with
  | zero => intro n acc h; omega
  | succ fuel ih =>
    intro n acc h
    rw [natDecimalGo]
    by_cases h10 : n < 10
    · rw [if_pos h10]
      refine ⟨1, ?_⟩
      have hf := digitChar_facts n h10
      show (if (Char.ofNat (48 + n)).isDigit then
            digitsValGo [] (acc * 10 + ((Char.ofNat (48 + n)).toNat - 48))
          else none) = some (acc * 10 ^ 1 + n)
      rw [if_pos hf.1, hf.2.2.2.1]
      show some (acc * 10 + (48 + n - 48)) = some (acc * 10 ^ 1 + n)
      have h48 : 48 + n - 48 = n := by omega
      rw [h48, pow_one]
    · rw [if_neg h10]
      have hlt : n / 10 < fuel := by omega
      obtain ⟨e, he⟩ := ih (n / 10) acc hlt
      refine ⟨e + 1, ?_⟩
      rw [digitsValGo_append, he]
      have hf := digitChar_facts (n % 10) (Nat.mod_lt _ (by omega))
      show (if (Char.ofNat (48 + n % 10)).isDigit then
            digitsValGo []
              ((acc * 10 ^ e + n / 10) * 10 + ((Char.ofNat (48 + n % 10)).toNat - 48))
          else none) = some (acc * 10 ^ (e + 1) + n)
      rw [if_pos hf.1, hf.2.2.2.1]
      have h48 : 48 + n % 10 - 48 = n % 10 := by omega
      show some ((acc * 10 ^ e + n / 10) * 10 + (48 + n % 10 - 48))
        = some (acc * 10 ^ (e + 1) + n)
      rw [h48]
      congr 1
      calc (acc * 10 ^ e + n / 10) * 10 + n % 10
          = acc * (10 ^ e * 10) + (10 * (n / 10) + n % 10) := by ring
        _ = acc * 10 ^ (e + 1) + n := by rw [Nat.div_add_mod, pow_succ]

theorem natDecimal_val (n : Nat) : digitsValGo (natDecimal n) 0 = some n := by
  obtain ⟨e, he⟩ := natDecimalGo_val (n + 1) n 0 (by omega)
  rw [natDecimal, he]
  simp

theorem atoi_natDecimal (n : Nat) : atoi (natDecimal n) = some (n : Int) := by
  obtain ⟨c, cs, hcc⟩ : ∃ c cs, natDecimal n = c :: cs := by
    cases h : natDecimal n with
    | nil => exact absurd h (natDecimal_ne_nil n)
    | cons c cs => exact ⟨c, cs, rfl⟩
  have hmem := natDecimal_mem n c (by rw [hcc]; simp)
  rw [hcc]
  show (if c == '+' then
        if cs.isEmpty then none else (digitsValGo cs 0).map (fun n => (n : Int))
      else if c == '-' then
        if cs.isEmpty then none else (digitsValGo cs 0).map (fun n => -(n : Int))
      else (digitsValGo (c :: cs) 0).map (fun n => (n : Int)))
    = some (n : Int)
  rw [if_neg (by rw [hmem.2.2.2.1]; exact Bool.false_ne_true),
    if_neg (by rw [hmem.2.2.2.2.1]; exact Bool.false_ne_true),
    ← hcc, natDecimal_val n]
  rfl

theorem map_self_of (f : Char → Char) :
    ∀ l : List Char, (∀ c ∈ l, f c = c) → l.map f = l := by
  intro l
  induction l with
  | nil => intro _; rfl
  | cons c cs ih =>
    intro h
    rw [List.map_cons, h c (by simp), ih (fun x hx => h x (by simp [hx]))]

theorem trimWS_noop (c : Char) (mid M : List Char) (d : Char)
    (hc : c.isWhitespace = false) (hd : d.isWhitespace = false)
    (hsplit : c :: mid = M ++ [d]) :
    trimWS (c :: mid) = c :: mid := by
  rw [trimWS]
  rw [List.dropWhile_cons, if_neg (by rw [hc]; exact Bool.false_ne_true)]
  rw [hsplit, List.reverse_append]
  show ((d :: M.reverse).dropWhile Char.isWhitespace).reverse = M ++ [d]
  rw [List.dropWhile_cons, if_neg (by rw [hd]; exact Bool.false_ne_true)]
  have : (d :: M.reverse).reverse = M ++ [d] := by simp
  rw [this]

theorem listLeads_refl_append : ∀ a b : List Char, listLeads a (a ++ b) = true := by
  intro a
  induction a with
  | nil => intro b; rfl
  | cons c cs ih =>
    intro b
    show (c == c && listLeads cs (cs ++ b)) = true
    rw [ih]
    simp

theorem dropSuffixL_append (a suf : List Char) : dropSuffixL (a ++ suf) suf = a := by
  rw [dropSuffixL, List.reverse_append,
    if_pos (listLeads_refl_append suf.reverse a.reverse), List.length_append]
  have h : a.length + suf.length - suf.length = a.length := by omega
  rw [h, List.take_left]

theorem beq_cons_false {c d : Char} (cs ds : List Char) (h : (c == d) = false) :
    ((c :: cs : List Char) == (d :: ds)) = false := by
  rw [beq_eq_false_iff_ne]
  intro heq
  cases heq
  simp at h

theorem fieldsGo_nonws (w : List Char) (hw : ∀ c ∈ w, c.isWhitespace = false) :
    ∀ rest acc, fieldsGo (w ++ rest) acc = fieldsGo rest (w.reverse ++ acc) := by
  induction w with
  | nil => intro rest acc; simp
  | cons c cs ih =>
    intro rest acc
    have hc : c.isWhitespace = false := hw c (by simp)
    show (if c.isWhitespace then
          if acc.isEmpty then fieldsGo (cs ++ rest) []
          else acc.reverse :: fieldsGo (cs ++ rest) []
        else fieldsGo (cs ++ rest) (c :: acc))
      = fieldsGo rest ((c :: cs).reverse ++ acc)
    rw [if_neg (by rw [hc]; exact Bool.false_ne_true)]
    rw [ih (fun x hx => hw x (by simp [hx])) rest (c :: acc)]
    congr 1
    simp

theorem fieldsGo_single (b : List Char) (hb : b ≠ [])
    (hbw : ∀ c ∈ b, c.isWhitespace = false) : fieldsGo b [] = [b] := by
  have h := fieldsGo_nonws b hbw [] []
  rw [List.append_nil] at h
  rw [h]
  show (if (b.reverse ++ []).isEmpty then []
      else [(b.reverse ++ []).reverse]) = [b]
  rw [List.append_nil]
  rw [if_neg (by
    intro hx
    exact hb (by simpa using List.isEmpty_iff.mp hx))]
  rw [List.reverse_reverse]

theorem fieldsOf_two (a b : List Char) (ha : a ≠ [])
    (haw : ∀ c ∈ a, c.isWhitespace = false) (hb : b ≠ [])
    (hbw : ∀ c ∈ b, c.isWhitespace = false) :
    fieldsOf (a ++ ' ' :: b) = [a, b] := by
  rw [fieldsOf, fieldsGo_nonws a haw]
  conv_lhs => rw [fieldsGo]
  rw [if_pos (show (' ' : Char).isWhitespace = true by decide)]
  rw [if_neg (by
    intro hx
    rw [List.append_nil] at hx
    exact ha (by simpa using List.isEmpty_iff.mp hx))]
  rw [List.append_nil, List.reverse_reverse, fieldsGo_single b hb hbw]

theorem parseRel_numeral (n : Nat) (w : List Char) (hwne : w ≠ [])
    (hww : ∀ c ∈ w, c.isWhitespace = false)
    (hwl : ∀ c ∈ w, Char.toLower c = c) :
    parseRelativeTime (String.mk (natDecimal n ++ ' ' :: (w ++ [' ', 'a', 'g', 'o'])))
      = unitDispatch (n : Int) w := by
  obtain ⟨c, cs, hcc⟩ : ∃ c cs, natDecimal n = c :: cs := by
    cases h : natDecimal n with
    | nil => exact absurd h (natDecimal_ne_nil n)
    | cons c cs => exact ⟨c, cs, rfl⟩
  have hmem := natDecimal_mem n c (by rw [hcc]; simp)
  rw [parseRelativeTime]
  have h0 : (String.mk (natDecimal n ++ ' ' :: (w ++ [' ', 'a', 'g', 'o']))).toList
      = natDecimal n ++ ' ' :: (w ++ [' ', 'a', 'g', 'o']) := rfl
  rw [h0]
  have h1 : (natDecimal n ++ ' ' :: (w ++ [' ', 'a', 'g', 'o'])).map Char.toLower
      = natDecimal n ++ ' ' :: (w ++ [' ', 'a', 'g', 'o']) := by
    rw [List.map_append, map_self_of _ _ (fun x hx => (natDecimal_mem n x hx).2.2.1),
      List.map_cons, List.map_append, map_self_of _ _ hwl]
    have hsp : Char.toLower ' ' = ' ' := by decide
    have hago : [' ', 'a', 'g', 'o'].map Char.toLower = [' ', 'a', 'g', 'o'] := by
      decide
    rw [hsp, hago]
  rw [h1]
  have h2 : trimWS (natDecimal n ++ ' ' :: (w ++ [' ', 'a', 'g', 'o']))
      = natDecimal n ++ ' ' :: (w ++ [' ', 'a', 'g', 'o']) := by
    rw [hcc, List.cons_append]
    exact trimWS_noop c (cs ++ ' ' :: (w ++ [' ', 'a', 'g', 'o']))
      (c :: (cs ++ ' ' :: (w ++ [' ', 'a', 'g']))) 'o' hmem.2.1 (by decide)
      (by simp)
  rw [h2]
  have hagol : (" ago".toList : List Char) = [' ', 'a', 'g', 'o'] := rfl
  have h3 : dropSuffixL (natDecimal n ++ ' ' :: (w ++ [' ', 'a', 'g', 'o']))
      " ago".toList = natDecimal n ++ ' ' :: w := by
    rw [hagol]
    have hsplit : natDecimal n ++ ' ' :: (w ++ [' ', 'a', 'g', 'o'])
        = (natDecimal n ++ ' ' :: w) ++ [' ', 'a', 'g', 'o'] := by simp
    rw [hsplit, dropSuffixL_append]
  rw [h3]
  have h4 : ((natDecimal n ++ ' ' :: w) == "just now".toList) = false := by
    rw [hcc, List.cons_append]
    exact beq_cons_false _ _ hmem.2.2.2.2.2.1
  have h5 : ((natDecimal n ++ ' ' :: w) == "yesterday".toList) = false := by
    rw [hcc, List.cons_append]
    exact beq_cons_false _ _ hmem.2.2.2.2.2.2
  rw [if_neg (by rw [h4]; exact Bool.false_ne_true),
    if_neg (by rw [h5]; exact Bool.false_ne_true)]
  have h6 : fieldsOf (natDecimal n ++ ' ' :: w) = [natDecimal n, w] :=
    fieldsOf_two (natDecimal n) w (natDecimal_ne_nil n)
      (fun x hx => (natDecimal_mem n x hx).2.1) hwne hww
  rw [h6]
  dsimp only
  rw [atoi_natDecimal]
  dsimp only
  rw [unitDispatch]

/-! ### Claims -/

/-- C10: `Parser.ParseDocument` returns a nil error for every input document
(item-level failures only drop that item), so every engine branch that
handles a non-nil `ParseDocument` error — such as the page-skipping continue
in full-archive mode — is unreachable: the dead-branch counter of a
full-archive run is always 0. -/
theorem claim_C10 :
    (∀ items : List ItemParse, (ParseDocument items).2 = none)
    ∧ (∀ (fetch : Nat → PageOutcome) (now : Int) (st : Store) (maxPages : Nat),
        (ScrapeWithStrategy fetch now st .fullArchive maxPages).tr.postParseSkips = 0) := by
  constructor
  · intro items
    rfl
  · intro fetch now st maxPages
    rw [SWS_full_eq]
    exact fullGo_skips fetch (stopOnDuplicate .fullArchive) maxPages 1 st
      { mode := .fullArchive, lastKnownID := GetLatestHNPostID st } {}

/-- C7 counterexample: for a source whose configured URL is
`https://news.ycombinator.com/newest`, `buildPageURL` returns the hardcoded
site root for page 1 — not the source's bare configured URL, as the claim
demands for every source. -/
theorem claim_C7_counterexample :
    buildPageURL "https://news.ycombinator.com/newest" 1
      = "https://news.ycombinator.com/"
    ∧ buildPageURL "https://news.ycombinator.com/newest" 1
      ≠ "https://news.ycombinator.com/newest" := by
  refine ⟨?_, ?_⟩ <;> decide

/-- C7 amended: for sources whose URL does not contain
`news.ycombinator.com`, page 1 uses the bare configured URL and later pages
append the `?page=N` query template; for URLs containing
`news.ycombinator.com` the code substitutes the hardcoded root
`https://news.ycombinator.com/` for page 1 and the root `?p=N` template for
later pages (so page 1 is not the configured URL for such sources). -/
theorem claim_C7 (url : String) (page : Nat) :
    (strContains url "news.ycombinator.com" = false →
      buildPageURL url 1 = url
      ∧ (2 ≤ page → buildPageURL url page = url ++ "?page=" ++ toString page))
    ∧ (strContains url "news.ycombinator.com" = true →
      buildPageURL url 1 = "https://news.ycombinator.com/"
      ∧ (2 ≤ page →
          buildPageURL url page
            = "https://news.ycombinator.com/?p=" ++ toString page)) := by
  constructor
  · intro h
    constructor
    · unfold buildPageURL
      rw [if_neg (by rw [h]; exact Bool.false_ne_true), if_pos (by rfl)]
    · intro h2
      have hne : ((page == 1) = true) → False := by
        intro hc
        have := beq_iff_eq.mp hc
        omega
      unfold buildPageURL
      rw [if_neg (by rw [h]; exact Bool.false_ne_true), if_neg hne]
  · intro h
    constructor
    · unfold buildPageURL
      rw [if_pos h, if_pos (by rfl)]
    · intro h2
      have hne : ((page == 1) = true) → False := by
        intro hc
        have := beq_iff_eq.mp hc
        omega
      unfold buildPageURL
      rw [if_pos h, if_neg hne]

/-- C7 witness: concrete URLs exercising both branches of the amended claim. -/
theorem claim_C7_witness :
    buildPageURL "https://example.com/feed" 1 = "https://example.com/feed"
    ∧ buildPageURL "https://example.com/feed" 3 = "https://example.com/feed?page=3"
    ∧ buildPageURL "https://news.ycombinator.com/newest" 3
        = "https://news.ycombinator.com/?p=3" := by
  have h1 := (claim_C7 "https://example.com/feed" 3).1 (by decide)
  have h2 := (claim_C7 "https://news.ycombinator.com/newest" 3).2 (by decide)
  exact ⟨h1.1, h1.2 (by omega), h2.2 (by omega)⟩

/-- C3 counterexample: a since-last run whose first page fetch fails stops
after page 1 of 5, returns a result object, but appends nothing to the
error list — refuting "in every crawl mode the failure is appended to the
result's error list". -/
theorem claim_C3_counterexample :
    (ScrapeWithStrategy (fun _ => .fetchFail "boom") 0 {} .sinceLast 5).res.errors = []
    ∧ (ScrapeWithStrategy (fun _ => .fetchFail "boom") 0 {} .sinceLast 5).tr.pagesFetched = [1]
    ∧ (ScrapeWithStrategy (fun _ => .fetchFail "boom") 0 {} .sinceLast 5).res.pagesScraped = 0 := by
  refine ⟨?_, ?_, ?_⟩ <;> decide

/-- C3 amended: a page-level fetch failure terminates the page loop early in
every mode and the engine still returns the partially filled result, but
only until-existing and full-archive append the failure to the error list
(with mode-specific strings); since-last breaks with no error recorded, and
latest-only returns the error to the caller with no error recorded. -/
theorem claim_C3 (fetch : Nat → PageOutcome) (now : Int) (st : Store)
    (maxPages : Nat) (m : String)
    (hmax : 1 ≤ maxPages)
    (hf : fetch 1 = .fetchFail m) :
    ((ScrapeWithStrategy fetch now st .untilExisting maxPages).res.errors
        = ["Page " ++ toString (1 : Nat) ++ ": " ++ ("failed to fetch page: " ++ m)]
      ∧ (ScrapeWithStrategy fetch now st .untilExisting maxPages).tr.pagesFetched = [1])
    ∧ ((ScrapeWithStrategy fetch now st .fullArchive maxPages).res.errors
        = ["Page " ++ toString (1 : Nat) ++ ": " ++ m]
      ∧ (ScrapeWithStrategy fetch now st .fullArchive maxPages).tr.pagesFetched = [1])
    ∧ ((ScrapeWithStrategy fetch now st .sinceLast maxPages).res.errors = []
      ∧ (ScrapeWithStrategy fetch now st .sinceLast maxPages).tr.pagesFetched = [1])
    ∧ ((ScrapeWithStrategy fetch now st .latest maxPages).err
        = some ("failed to fetch page: " ++ m)
      ∧ (ScrapeWithStrategy fetch now st .latest maxPages).res.errors = []) := by
  obtain ⟨k, rfl⟩ : ∃ k, maxPages = k + 1 := ⟨maxPages - 1, by omega⟩
  have hsp : scrapePage fetch now 1 = .error ("failed to fetch page: " ++ m) := by
    unfold scrapePage
    rw [hf]
  refine ⟨⟨?_, ?_⟩, ⟨?_, ?_⟩, ⟨?_, ?_⟩, ⟨?_, ?_⟩⟩
  · rw [SWS_until_eq,
      untilGo_err fetch now k 1 0 0 st
        { mode := .untilExisting, lastKnownID := GetLatestHNPostID st } {}
        ("failed to fetch page: " ++ m) hsp]
    simp
  · rw [SWS_until_eq,
      untilGo_err fetch now k 1 0 0 st
        { mode := .untilExisting, lastKnownID := GetLatestHNPostID st } {}
        ("failed to fetch page: " ++ m) hsp]
    simp
  · rw [SWS_full_eq,
      fullGo_err fetch (stopOnDuplicate .fullArchive) k 1 st
        { mode := .fullArchive, lastKnownID := GetLatestHNPostID st } {} m hf]
    simp
  · rw [SWS_full_eq,
      fullGo_err fetch (stopOnDuplicate .fullArchive) k 1 st
        { mode := .fullArchive, lastKnownID := GetLatestHNPostID st } {} m hf]
    simp
  · rw [SWS_since_eq, scrapeSinceLast_eq,
      sinceGo_err fetch now (GetLatestHNPostID st) k 1 []
        { mode := .sinceLast, lastKnownID := GetLatestHNPostID st } {}
        ("failed to fetch page: " ++ m) hsp]
    rfl
  · rw [SWS_since_eq, scrapeSinceLast_eq,
      sinceGo_err fetch now (GetLatestHNPostID st) k 1 []
        { mode := .sinceLast, lastKnownID := GetLatestHNPostID st } {}
        ("failed to fetch page: " ++ m) hsp]
    rfl
  · rw [SWS_latest_eq,
      scrapeLatestPage_err fetch now st
        { mode := .latest, lastKnownID := GetLatestHNPostID st }
        ("failed to fetch page: " ++ m) hsp]
  · rw [SWS_latest_eq,
      scrapeLatestPage_err fetch now st
        { mode := .latest, lastKnownID := GetLatestHNPostID st }
        ("failed to fetch page: " ++ m) hsp]

/-- C3 witness: the amended claim at a concrete failing environment. -/
theorem claim_C3_witness :
    (ScrapeWithStrategy (fun _ => .fetchFail "dead") 0 {} .untilExisting 2).res.errors
      = ["Page 1: failed to fetch page: dead"]
    ∧ (ScrapeWithStrategy (fun _ => .fetchFail "dead") 0 {} .fullArchive 2).res.errors
      = ["Page 1: dead"]
    ∧ (ScrapeWithStrategy (fun _ => .fetchFail "dead") 0 {} .sinceLast 2).res.errors = []
    ∧ (ScrapeWithStrategy (fun _ => .fetchFail "dead") 0 {} .latest 2).err
      = some "failed to fetch page: dead" := by
  have h := claim_C3 (fun _ => .fetchFail "dead") 0 {} 2 "dead" (by omega) rfl
  exact ⟨h.1.1, h.2.1.1, h.2.2.1.1, h.2.2.2.1⟩

/-- C1 counterexample: a since-last run that observes a record (id 11, one
new post inserted) against a store whose last known id is 10 leaves
`highestIDSeen` at 0, strictly below `lastKnownID` — refuting both "updated
from every record observed in every mode" and the `highestIDSeen ≥
lastKnownID` invariant. -/
theorem claim_C1_counterexample :
    (ScrapeWithStrategy
        (fun pg => if pg = 1 then .ok [.parsed { hnID := 11 }] else .fetchFail "x")
        0 { posts := [⟨1, 10, "", "", "", 0, 0⟩], nextId := 2 }
        .sinceLast 1).res.lastKnownID = 10
    ∧ (ScrapeWithStrategy
        (fun pg => if pg = 1 then .ok [.parsed { hnID := 11 }] else .fetchFail "x")
        0 { posts := [⟨1, 10, "", "", "", 0, 0⟩], nextId := 2 }
        .sinceLast 1).res.newPosts = 1
    ∧ (ScrapeWithStrategy
        (fun pg => if pg = 1 then .ok [.parsed { hnID := 11 }] else .fetchFail "x")
        0 { posts := [⟨1, 10, "", "", "", 0, 0⟩], nextId := 2 }
        .sinceLast 1).tr.examined = [11]
    ∧ (ScrapeWithStrategy
        (fun pg => if pg = 1 then .ok [.parsed { hnID := 11 }] else .fetchFail "x")
        0 { posts := [⟨1, 10, "", "", "", 0, 0⟩], nextId := 2 }
        .sinceLast 1).res.highestIDSeen = 0
    ∧ ¬((ScrapeWithStrategy
        (fun pg => if pg = 1 then .ok [.parsed { hnID := 11 }] else .fetchFail "x")
        0 { posts := [⟨1, 10, "", "", "", 0, 0⟩], nextId := 2 }
        .sinceLast 1).res.lastKnownID
      ≤ (ScrapeWithStrategy
        (fun pg => if pg = 1 then .ok [.parsed { hnID := 11 }] else .fetchFail "x")
        0 { posts := [⟨1, 10, "", "", "", 0, 0⟩], nextId := 2 }
        .sinceLast 1).res.highestIDSeen) := by
  refine ⟨?_, ?_, ?_, ?_, ?_⟩ <;> decide

/-- C1 amended: `savePosts` updates `highestIDSeen` from every record it
processes (running maximum), so in latest-only mode the run's
`highestIDSeen` is the maximum observed identifier and dominates
`lastKnownID` whenever some observed identifier reaches it; in since-last
and until-existing modes `highestIDSeen` is never updated and stays 0. -/
theorem claim_C1 (fetch : Nat → PageOutcome) (now : Int) (st : Store)
    (maxPages : Nat) (ps : List Post)
    (h1 : scrapePage fetch now 1 = .ok ps)
    (h2 : ∃ p ∈ ps, GetLatestHNPostID st ≤ p.hnID) :
    (∀ (st2 : Store) (res2 : ScrapingResult) (ps2 : List Post),
      (savePosts st2 res2 ps2).2.2.highestIDSeen
        = ps2.foldl (fun m p => max m p.hnID) res2.highestIDSeen)
    ∧ (ScrapeWithStrategy fetch now st .latest maxPages).res.highestIDSeen
        = ps.foldl (fun m p => max m p.hnID) 0
    ∧ (ScrapeWithStrategy fetch now st .latest maxPages).res.lastKnownID
        ≤ (ScrapeWithStrategy fetch now st .latest maxPages).res.highestIDSeen
    ∧ (∀ (f2 : Nat → PageOutcome) (n2 : Int) (s2 : Store) (mp2 : Nat),
        (ScrapeWithStrategy f2 n2 s2 .sinceLast mp2).res.highestIDSeen = 0
        ∧ (ScrapeWithStrategy f2 n2 s2 .untilExisting mp2).res.highestIDSeen = 0) := by
  have hlat : (ScrapeWithStrategy fetch now st .latest maxPages).res.highestIDSeen
      = ps.foldl (fun m p => max m p.hnID) 0 := by
    rw [SWS_latest_eq,
      scrapeLatestPage_ok fetch now st
        { mode := .latest, lastKnownID := GetLatestHNPostID st } ps h1]
    exact savePosts_highest ps st { mode := .latest, lastKnownID := GetLatestHNPostID st }
  refine ⟨fun st2 res2 ps2 => savePosts_highest ps2 st2 res2, hlat, ?_, ?_⟩
  · rw [hlat]
    have hlast : (ScrapeWithStrategy fetch now st .latest maxPages).res.lastKnownID
        = GetLatestHNPostID st := by
      rw [SWS_latest_eq,
        scrapeLatestPage_ok fetch now st
          { mode := .latest, lastKnownID := GetLatestHNPostID st } ps h1]
      exact (savePosts_preserve ps st _).1
    rw [hlast]
    rcases h2 with ⟨p, hp, hKp⟩
    have hfold : ps.foldl (fun m p => max m p.hnID) 0
        = (ps.map (fun p => p.hnID)).foldl max 0 := by
      rw [List.foldl_map]
    rw [hfold]
    exact le_trans hKp
      (mem_le_foldl_max (ps.map (fun p => p.hnID)) 0 p.hnID
        (List.mem_map.mpr ⟨p, hp, rfl⟩))
  · intro f2 n2 s2 mp2
    constructor
    · rw [SWS_since_eq, scrapeSinceLast_eq]
      rw [(sinceFold_preserve _ _ _).1]
      exact (sinceGo_highest f2 n2 (GetLatestHNPostID s2) mp2 1 [] _ {}).1
    · rw [SWS_until_eq]
      exact (untilGo_highest f2 n2 mp2 1 0 0 s2 _ {}).1

/-- C1 witness: the amended claim at a concrete latest-only environment. -/
theorem claim_C1_witness :
    (ScrapeWithStrategy (fun _ => .ok [.parsed { hnID := 11 }]) 0
        { posts := [⟨1, 10, "", "", "", 0, 0⟩], nextId := 2 } .latest 1).res.highestIDSeen = 11
    ∧ (ScrapeWithStrategy (fun _ => .ok [.parsed { hnID := 11 }]) 0
        { posts := [⟨1, 10, "", "", "", 0, 0⟩], nextId := 2 } .latest 1).res.lastKnownID
      ≤ (ScrapeWithStrategy (fun _ => .ok [.parsed { hnID := 11 }]) 0
        { posts := [⟨1, 10, "", "", "", 0, 0⟩], nextId := 2 } .latest 1).res.highestIDSeen
    ∧ (ScrapeWithStrategy (fun _ => .ok [.parsed { hnID := 11 }]) 0
        { posts := [⟨1, 10, "", "", "", 0, 0⟩], nextId := 2 } .sinceLast 1).res.highestIDSeen = 0 := by
  have h := claim_C1 (fun _ => .ok [.parsed { hnID := 11 }]) 0
    { posts := [⟨1, 10, "", "", "", 0, 0⟩], nextId := 2 } 1 [{ hnID := 11 }]
    rfl (by decide)
  exact ⟨h.2.1, h.2.2.1,
    (h.2.2.2 (fun _ => .ok [.parsed { hnID := 11 }]) 0
      { posts := [⟨1, 10, "", "", "", 0, 0⟩], nextId := 2 } 1).1⟩

/-- C9: starting an already-active source is rejected with an error and the
registry is left unchanged; start, stop and stop-all preserve uniqueness of
registry keys, so at every point there is at most one entry — active or not
— per source name. -/
theorem claim_C9 (cfg : String → Bool) (s : MultiScheduler) (name : String)
    (h : IsActive s name = true) :
    (StartScraper cfg s name).2 = some ("scraper " ++ name ++ " is already running")
    ∧ (StartScraper cfg s name).1 = s
    ∧ (∀ (cfg2 : String → Bool) (s2 : MultiScheduler) (n2 : String),
        ((s2.scrapers.map Prod.fst).Nodup →
          ((StartScraper cfg2 s2 n2).1.scrapers.map Prod.fst).Nodup
          ∧ ((StopScraper s2 n2).1.scrapers.map Prod.fst).Nodup
          ∧ ((StopAll s2).scrapers.map Prod.fst).Nodup)
        ∧ ((s2.scrapers.map Prod.fst).Nodup →
          s2.scrapers.countP (fun kv => kv.1 == n2) ≤ 1)) := by
  refine ⟨?_, ?_, ?_⟩
  · unfold StartScraper
    rw [if_pos (show ((lookupJob s name).elim false (fun j => j.isActive)) = true from h)]
  · unfold StartScraper
    rw [if_pos (show ((lookupJob s name).elim false (fun j => j.isActive)) = true from h)]
  · intro cfg2 s2 n2
    constructor
    · intro hnd
      refine ⟨?_, ?_, ?_⟩
      · unfold StartScraper
        by_cases hA : ((lookupJob s2 n2).elim false (fun j => j.isActive)) = true
        · rw [if_pos hA]
          exact hnd
        · rw [if_neg hA]
          by_cases hC : (!cfg2 n2) = true
          · rw [if_pos hC]
            exact hnd
          · rw [if_neg hC]
            exact nodup_mapInsert s2.scrapers n2 ⟨true⟩ hnd
      · unfold StopScraper
        split
        · exact hnd
        · split
          · exact hnd
          · exact nodup_mapInsert s2.scrapers n2 ⟨false⟩ hnd
      · unfold StopAll
        rw [List.map_map]
        have hcomp : (Prod.fst ∘ fun kv : String × ScraperJob =>
            (kv.1, (⟨false⟩ : ScraperJob))) = Prod.fst := funext fun kv => rfl
        rw [hcomp]
        exact hnd
    · intro hnd
      exact countP_le_one_of_nodup s2.scrapers n2 hnd

/-- C9 witness: double-start of an active source `a` errors and leaves the
one-entry registry unchanged. -/
theorem claim_C9_witness :
    (StartScraper (fun _ => true) ⟨[("a", ⟨true⟩)]⟩ "a").2
      = some "scraper a is already running"
    ∧ (StartScraper (fun _ => true) ⟨[("a", ⟨true⟩)]⟩ "a").1 = ⟨[("a", ⟨true⟩)]⟩ := by
  have h := claim_C9 (fun _ => true) ⟨[("a", ⟨true⟩)]⟩ "a" (by decide)
  exact ⟨h.1, h.2.1⟩

/-- C5 counterexample: running latest-only twice against the unchanged
one-record page `[{id 1, score 5, comments 2}]` from an empty store: no
record's score or comment count changed between the runs
(`specChangedCount = 0`), yet the second run reports `updatedPosts = 1` —
`UpdatePost` fires and is counted for every existing record, changed or
not. -/
theorem claim_C5_counterexample :
    specChangedCount
      (ScrapeWithStrategy
        (fun _ => .ok [.parsed { hnID := 1, points := 5, commentsCount := 2 }])
        0 {} .latest 1).store
      [{ hnID := 1, points := 5, commentsCount := 2 }] = 0
    ∧ (ScrapeWithStrategy
        (fun _ => .ok [.parsed { hnID := 1, points := 5, commentsCount := 2 }])
        0 (ScrapeWithStrategy
          (fun _ => .ok [.parsed { hnID := 1, points := 5, commentsCount := 2 }])
          0 {} .latest 1).store .latest 1).res.newPosts = 0
    ∧ (ScrapeWithStrategy
        (fun _ => .ok [.parsed { hnID := 1, points := 5, commentsCount := 2 }])
        0 (ScrapeWithStrategy
          (fun _ => .ok [.parsed { hnID := 1, points := 5, commentsCount := 2 }])
          0 {} .latest 1).store .latest 1).res.updatedPosts = 1 := by
  refine ⟨?_, ?_, ?_⟩ <;> decide

/-- C5 amended: re-running latest-only against an unchanged page yields
`newPosts = 0` on the second run, but `updatedPosts` equals the number of
records on the page — every record that exists is updated and counted,
whether or not its score or comment count changed. -/
theorem claim_C5 (fetch : Nat → PageOutcome) (now : Int) (st : Store)
    (maxPages : Nat) (ps : List Post)
    (h : scrapePage fetch now 1 = .ok ps) :
    (ScrapeWithStrategy fetch now
        (ScrapeWithStrategy fetch now st .latest maxPages).store
        .latest maxPages).res.newPosts = 0
    ∧ (ScrapeWithStrategy fetch now
        (ScrapeWithStrategy fetch now st .latest maxPages).store
        .latest maxPages).res.updatedPosts = ps.length := by
  have hstore : (ScrapeWithStrategy fetch now st .latest maxPages).store
      = (savePosts st { mode := .latest, lastKnownID := GetLatestHNPostID st } ps).2.1 := by
    rw [SWS_latest_eq,
      scrapeLatestPage_ok fetch now st
        { mode := .latest, lastKnownID := GetLatestHNPostID st } ps h]
  have hex : ∀ p ∈ ps, PostExists
      (ScrapeWithStrategy fetch now st .latest maxPages).store p.hnID = true := by
    intro p hp
    rw [hstore]
    exact PostExists_savePosts_mem ps st _ p hp
  rcases savePosts_allExist ps (ScrapeWithStrategy fetch now st .latest maxPages).store
    { mode := .latest,
      lastKnownID := GetLatestHNPostID
        (ScrapeWithStrategy fetch now st .latest maxPages).store } hex
    with ⟨_, h2, h3⟩
  constructor
  · rw [SWS_latest_eq,
      scrapeLatestPage_ok fetch now
        (ScrapeWithStrategy fetch now st .latest maxPages).store
        { mode := .latest,
          lastKnownID := GetLatestHNPostID
            (ScrapeWithStrategy fetch now st .latest maxPages).store } ps h]
    exact h2
  · rw [SWS_latest_eq,
      scrapeLatestPage_ok fetch now
        (ScrapeWithStrategy fetch now st .latest maxPages).store
        { mode := .latest,
          lastKnownID := GetLatestHNPostID
            (ScrapeWithStrategy fetch now st .latest maxPages).store } ps h]
    rw [h3]
    simp

/-- C5 witness: the amended claim at the concrete unchanged page. -/
theorem claim_C5_witness :
    (ScrapeWithStrategy
        (fun _ => .ok [.parsed { hnID := 1, points := 5, commentsCount := 2 }])
        0 (ScrapeWithStrategy
          (fun _ => .ok [.parsed { hnID := 1, points := 5, commentsCount := 2 }])
          0 {} .latest 1).store .latest 1).res.newPosts = 0
    ∧ (ScrapeWithStrategy
        (fun _ => .ok [.parsed { hnID := 1, points := 5, commentsCount := 2 }])
        0 (ScrapeWithStrategy
          (fun _ => .ok [.parsed { hnID := 1, points := 5, commentsCount := 2 }])
          0 {} .latest 1).store .latest 1).res.updatedPosts = 1 :=
  claim_C5 (fun _ => .ok [.parsed { hnID := 1, points := 5, commentsCount := 2 }])
    0 {} 1 [{ hnID := 1, points := 5, commentsCount := 2 }] rfl

/-- C6 counterexample: `savePosts` on an empty store inserts the record
(`newPosts = 1`) but appends NO initial history snapshot — the history table
stays empty, refuting "inserted fresh together with an initial history
snapshot" (only `ScrapeOnce`, not the strategy engine, writes an initial
snapshot). -/
theorem claim_C6_counterexample :
    (savePosts {} { mode := .latest }
      [{ hnID := 1, points := 5, commentsCount := 2 }]).2.1.history = []
    ∧ (savePosts {} { mode := .latest }
      [{ hnID := 1, points := 5, commentsCount := 2 }]).2.2.newPosts = 1 := by
  refine ⟨?_, ?_⟩ <;> decide

/-- C6 amended: for a page with distinct identifiers, `savePosts` updates
every already-existing record in place (same internal id, score and comment
count refreshed) and appends exactly one history snapshot per existing
record, in scan order; a record whose identifier is absent is inserted
fresh (all fields taken from the page) with NO initial history snapshot. -/
theorem claim_C6 (st : Store) (res : ScrapingResult) (ps : List Post)
    (h : (ps.map (fun p => p.hnID)).Nodup) :
    (savePosts st res ps).2.1.history
      = st.history ++ ps.filterMap (fun p =>
          (findPost st p.hnID).map (fun q => (q.id, p.points, p.commentsCount)))
    ∧ ∀ p ∈ ps,
        (∀ q0, findPost st p.hnID = some q0 →
          findPost (savePosts st res ps).2.1 p.hnID
            = some { q0 with points := p.points, commentsCount := p.commentsCount })
        ∧ (findPost st p.hnID = none →
          ∃ q, findPost (savePosts st res ps).2.1 p.hnID = some q
            ∧ q.hnID = p.hnID ∧ q.points = p.points ∧ q.commentsCount = p.commentsCount
            ∧ q.title = p.title ∧ q.url = p.url ∧ q.author = p.author) := by
  induction ps generalizing st res with
  | nil =>
    refine ⟨by simp [savePosts], ?_⟩
    intro p hp
    exact absurd hp (List.not_mem_nil p)
  | cons p ps ih =>
    have hnd' : (ps.map (fun p => p.hnID)).Nodup := (List.nodup_cons.mp h).2
    have hpnot : p.hnID ∉ ps.map (fun p => p.hnID) := (List.nodup_cons.mp h).1
    have hne_tail : ∀ q ∈ ps, q.hnID ≠ p.hnID := by
      intro q hq he
      exact hpnot (he ▸ List.mem_map.mpr ⟨q, hq, rfl⟩)
    cases hq0 : findPost st p.hnID with
    | some q0 =>
      have hex : PostExists st p.hnID = true := by
        rw [PostExists_eq_isSome, hq0]
        rfl
      have hstep : savePosts st res (p :: ps)
          = savePosts (UpdatePost st p)
              (bumpHighest p { res with updatedPosts := res.updatedPosts + 1 }) ps := by
        conv_lhs => rw [savePosts]
        rw [if_pos hex]
      have hfind_tail : ∀ q ∈ ps,
          findPost (UpdatePost st p) q.hnID = findPost st q.hnID := by
        intro q hq
        exact findPost_UpdatePost_ne st p q.hnID (hne_tail q hq)
      rcases ih (UpdatePost st p)
        (bumpHighest p { res with updatedPosts := res.updatedPosts + 1 }) hnd'
        with ⟨ihh, ihm⟩
      constructor
      · rw [hstep, ihh, history_UpdatePost, hq0]
        rw [List.filterMap_cons_some (by rw [hq0]; rfl)]
        rw [filterMap_congr_mem ps _ _ (fun q hq => by rw [hfind_tail q hq])]
        simp
      · intro p2 hp2
        rcases List.mem_cons.mp hp2 with h1 | h1
        · subst h1
          constructor
          · intro q0' hq0'
            rw [hq0] at hq0'
            cases hq0'
            rw [hstep,
              findPost_savePosts_ne ps (UpdatePost st p2) _ p2.hnID
                (fun q hq => hne_tail q hq),
              findPost_UpdatePost_self st p2, hq0]
            rfl
          · intro hnone
            rw [hq0] at hnone
            exact Option.noConfusion hnone
        · constructor
          · intro q0' hq0'
            have := (ihm p2 h1).1 q0' (by rw [hfind_tail p2 h1]; exact hq0')
            rw [hstep]
            exact this
          · intro hnone
            have := (ihm p2 h1).2 (by rw [hfind_tail p2 h1]; exact hnone)
            rw [hstep]
            exact this
    | none =>
      have hex : PostExists st p.hnID = false := by
        rw [PostExists_eq_isSome, hq0]
        rfl
      have hstep : savePosts st res (p :: ps)
          = ((savePosts (InsertPost st p)
              (bumpHighest p { res with newPosts := res.newPosts + 1 }) ps).1 + 1,
             (savePosts (InsertPost st p)
              (bumpHighest p { res with newPosts := res.newPosts + 1 }) ps).2) := by
        conv_lhs => rw [savePosts]
        rw [if_neg (by rw [hex]; exact Bool.false_ne_true)]
      have hfind_tail : ∀ q ∈ ps,
          findPost (InsertPost st p) q.hnID = findPost st q.hnID := by
        intro q hq
        exact findPost_InsertPost_ne st p q.hnID (hne_tail q hq)
      rcases ih (InsertPost st p)
        (bumpHighest p { res with newPosts := res.newPosts + 1 }) hnd'
        with ⟨ihh, ihm⟩
      constructor
      · rw [hstep]
        show (savePosts (InsertPost st p) _ ps).2.1.history = _
        rw [ihh, history_InsertPost]
        rw [List.filterMap_cons_none (by rw [hq0]; rfl)]
        rw [filterMap_congr_mem ps _ _ (fun q hq => by rw [hfind_tail q hq])]
      · intro p2 hp2
        rcases List.mem_cons.mp hp2 with h1 | h1
        · subst h1
          constructor
          · intro q0' hq0'
            rw [hq0] at hq0'
            exact Option.noConfusion hq0'
          · intro _
            rw [hstep]
            show ∃ q, findPost (savePosts (InsertPost st p2) _ ps).2.1 p2.hnID = some q ∧ _
            rw [findPost_savePosts_ne ps (InsertPost st p2) _ p2.hnID
                (fun q hq => hne_tail q hq),
              findPost_InsertPost_new st p2 hex]
            exact ⟨_, rfl, rfl, rfl, rfl, rfl, rfl, rfl⟩
        · constructor
          · intro q0' hq0'
            have := (ihm p2 h1).1 q0' (by rw [hfind_tail p2 h1]; exact hq0')
            rw [hstep]
            exact this
          · intro hnone
            have := (ihm p2 h1).2 (by rw [hfind_tail p2 h1]; exact hnone)
            rw [hstep]
            exact this

/-- C6 witness: one existing record (refreshed, one snapshot appended with
its pre-run internal id) and one new record (inserted, no snapshot), with
distinct identifiers. -/
theorem claim_C6_witness :
    (savePosts { posts := [⟨7, 1, "t", "u", "a", 3, 4⟩], nextId := 8 }
        { mode := .latest }
        [{ hnID := 1, points := 5, commentsCount := 6 },
         { hnID := 2, points := 9, commentsCount := 10 }]).2.1.history
      = [(7, 5, 6)]
    ∧ findPost (savePosts { posts := [⟨7, 1, "t", "u", "a", 3, 4⟩], nextId := 8 }
        { mode := .latest }
        [{ hnID := 1, points := 5, commentsCount := 6 },
         { hnID := 2, points := 9, commentsCount := 10 }]).2.1 1
      = some ⟨7, 1, "t", "u", "a", 5, 6⟩ := by
  have h := claim_C6 { posts := [⟨7, 1, "t", "u", "a", 3, 4⟩], nextId := 8 }
    { mode := .latest }
    [{ hnID := 1, points := 5, commentsCount := 6 },
     { hnID := 2, points := 9, commentsCount := 10 }] (by decide)
  refine ⟨h.1, ?_⟩
  have h2 := (h.2 { hnID := 1, points := 5, commentsCount := 6 }
    (List.mem_cons_self _ _)).1 ⟨7, 1, "t", "u", "a", 3, 4⟩ rfl
  exact h2

/-- C2: in since-last mode against a strictly rank-ordered (descending
identifier) page that contains a record at or below the pre-run highest
known identifier `K`, the engine collects exactly the records with
identifier greater than `K`, inserts all of them (fresh rows; no update
path, history untouched), counts each in `NewPosts`/`PostsScraped`, and
stops scanning the page and the run at the first record with identifier
≤ `K`: that record is the last identifier examined and no further page is
fetched. -/
theorem claim_C2 (fetch : Nat → PageOutcome) (now K : Int) (st : Store)
    (maxPages : Nat) (a : List Post) (b : Post) (rest : List Post)
    (hmax : 1 ≤ maxPages)
    (hK : GetLatestHNPostID st = K)
    (h1 : scrapePage fetch now 1 = .ok (a ++ b :: rest))
    (hdesc : (a ++ b :: rest).Pairwise (fun x y => y.hnID < x.hnID))
    (ha : ∀ p ∈ a, K < p.hnID)
    (hb : b.hnID ≤ K) :
    (ScrapeWithStrategy fetch now st .sinceLast maxPages).res.newPosts
      = ((a ++ b :: rest).filter (fun p => K < p.hnID)).length
    ∧ (ScrapeWithStrategy fetch now st .sinceLast maxPages).res.postsScraped
      = ((a ++ b :: rest).filter (fun p => K < p.hnID)).length
    ∧ (ScrapeWithStrategy fetch now st .sinceLast maxPages).res.updatedPosts = 0
    ∧ (ScrapeWithStrategy fetch now st .sinceLast maxPages).store.posts.map
        (fun q => q.hnID)
      = st.posts.map (fun q => q.hnID)
        ++ ((a ++ b :: rest).filter (fun p => K < p.hnID)).map (fun p => p.hnID)
    ∧ (ScrapeWithStrategy fetch now st .sinceLast maxPages).store.history
      = st.history
    ∧ (ScrapeWithStrategy fetch now st .sinceLast maxPages).tr.pagesFetched = [1]
    ∧ (ScrapeWithStrategy fetch now st .sinceLast maxPages).tr.examined
      = ((a ++ b :: rest).filter (fun p => K < p.hnID)).map (fun p => p.hnID)
        ++ [b.hnID] := by
  have hsub := List.pairwise_append.mp hdesc
  have hrest : ∀ r ∈ rest, r.hnID ≤ K := by
    intro r hr
    exact le_of_lt (lt_of_lt_of_le ((List.pairwise_cons.mp hsub.2.1).1 r hr) hb)
  have hfilter : (a ++ b :: rest).filter (fun p => K < p.hnID) = a := by
    rw [List.filter_append]
    rw [List.filter_eq_self.mpr (fun p hp => by
      simp only [decide_eq_true_eq]
      exact ha p hp)]
    rw [List.filter_eq_nil_iff.mpr (fun p hp => by
      simp only [decide_eq_true_eq, not_lt]
      rcases List.mem_cons.mp hp with hc | hc
      · subst hc; exact hb
      · exact hrest p hc)]
    simp
  have hNodupA : (a.map (fun p => p.hnID)).Nodup :=
    List.pairwise_map.mpr (hsub.1.imp (fun h => ne_of_gt h))
  have hnew : ∀ p ∈ a, PostExists st p.hnID = false := by
    intro p hp
    exact PostExists_false_of_gt st p.hnID (by rw [hK]; exact ha p hp)
  obtain ⟨k, rfl⟩ : ∃ k, maxPages = k + 1 := ⟨maxPages - 1, by omega⟩
  have hcoll := collectSince_found K b rest a ha hb
  rw [hfilter]
  rw [SWS_since_eq, scrapeSinceLast_eq, hK]
  rw [sinceGo_ok fetch now K k 1 []
    { mode := .sinceLast, lastKnownID := K } {} (a ++ b :: rest) h1]
  rw [hcoll]
  rw [if_pos (by rfl)]
  rcases sinceFold_counts a st
    { mode := .sinceLast, lastKnownID := K, pagesScraped := 1 } hnew hNodupA
    with ⟨hk1, hk2, hk3, hk4⟩
  rcases sinceFold_preserve a st
    { mode := .sinceLast, lastKnownID := K, pagesScraped := 1 }
    with ⟨_, hp2, _, _, _⟩
  refine ⟨?_, ?_, ?_, ?_, ?_, ?_, ?_⟩
  · exact hk4.trans (by simp)
  · exact hk3.trans (by simp)
  · exact hp2.trans rfl
  · exact hk1
  · exact hk2
  · rfl
  · rfl

/-- C2 witness: the spec's scenario — known highest identifier 100, one
page `[103, 102, 101, 100, 99]` — yields exactly 3 new records, examines
only `[103, 102, 101, 100]` (the record 99 is never examined), fetches no
further page, and performs no update. -/
theorem claim_C2_witness :
    (ScrapeWithStrategy
        (fun pg => if pg = 1 then
          .ok [.parsed { hnID := 103 }, .parsed { hnID := 102 },
               .parsed { hnID := 101 }, .parsed { hnID := 100 },
               .parsed { hnID := 99 }]
          else .fetchFail "x")
        0 { posts := [⟨1, 100, "", "", "", 0, 0⟩], nextId := 2 }
        .sinceLast 3).res.newPosts = 3
    ∧ (ScrapeWithStrategy
        (fun pg => if pg = 1 then
          .ok [.parsed { hnID := 103 }, .parsed { hnID := 102 },
               .parsed { hnID := 101 }, .parsed { hnID := 100 },
               .parsed { hnID := 99 }]
          else .fetchFail "x")
        0 { posts := [⟨1, 100, "", "", "", 0, 0⟩], nextId := 2 }
        .sinceLast 3).res.updatedPosts = 0
    ∧ (ScrapeWithStrategy
        (fun pg => if pg = 1 then
          .ok [.parsed { hnID := 103 }, .parsed { hnID := 102 },
               .parsed { hnID := 101 }, .parsed { hnID := 100 },
               .parsed { hnID := 99 }]
          else .fetchFail "x")
        0 { posts := [⟨1, 100, "", "", "", 0, 0⟩], nextId := 2 }
        .sinceLast 3).tr.pagesFetched = [1]
    ∧ (ScrapeWithStrategy
        (fun pg => if pg = 1 then
          .ok [.parsed { hnID := 103 }, .parsed { hnID := 102 },
               .parsed { hnID := 101 }, .parsed { hnID := 100 },
               .parsed { hnID := 99 }]
          else .fetchFail "x")
        0 { posts := [⟨1, 100, "", "", "", 0, 0⟩], nextId := 2 }
        .sinceLast 3).tr.examined = [103, 102, 101, 100] := by
  have h := claim_C2
    (fun pg => if pg = 1 then
      .ok [.parsed { hnID := 103 }, .parsed { hnID := 102 },
           .parsed { hnID := 101 }, .parsed { hnID := 100 },
           .parsed { hnID := 99 }]
      else .fetchFail "x")
    0 100 { posts := [⟨1, 100, "", "", "", 0, 0⟩], nextId := 2 } 3
    [{ hnID := 103 }, { hnID := 102 }, { hnID := 101 }] { hnID := 100 }
    [{ hnID := 99 }]
    (by omega) (by decide) rfl (by decide) (by decide) (by decide)
  exact ⟨h.1, h.2.2.1, h.2.2.2.2.2.1, h.2.2.2.2.2.2⟩

/-- C4: in until-existing mode, (i) five consecutive already-existing
records — with the running counter carried across a page boundary —
terminate the run immediately, mid-page, without scanning later records or
fetching further pages; (ii) the counter is reset to zero by a new insert,
after which five more consecutive existing records are required to stop;
(iii) two consecutive empty pages stop the run; (iv) a non-empty page with
zero new insertions stops the run after that page. -/
theorem claim_C4 :
    (∀ (fetch : Nat → PageOutcome) (now : Int) (st : Store) (maxPages : Nat)
        (pre : List Post) (d1 d2 d3 d4 d5 : Post) (rest2 : List Post),
      2 ≤ maxPages →
      scrapePage fetch now 1 = .ok (pre ++ [d1, d2]) →
      scrapePage fetch now 2 = .ok (d3 :: d4 :: d5 :: rest2) →
      (∀ p ∈ pre, PostExists st p.hnID = false) →
      (pre.map (fun p => p.hnID)).Nodup →
      pre ≠ [] →
      PostExists st d1.hnID = true →
      PostExists st d2.hnID = true →
      PostExists st d3.hnID = true →
      PostExists st d4.hnID = true →
      PostExists st d5.hnID = true →
      (ScrapeWithStrategy fetch now st .untilExisting maxPages).tr.pagesFetched = [1, 2]
      ∧ (ScrapeWithStrategy fetch now st .untilExisting maxPages).res.newPosts
        = pre.length
      ∧ (ScrapeWithStrategy fetch now st .untilExisting maxPages).tr.examined
        = pre.map (fun p => p.hnID)
          ++ [d1.hnID, d2.hnID, d3.hnID, d4.hnID, d5.hnID])
    ∧ (∀ (fetch : Nat → PageOutcome) (now : Int) (st : Store) (maxPages : Nat)
        (e1 e2 e3 e4 n f1 f2 f3 f4 f5 : Post) (rest : List Post),
      1 ≤ maxPages →
      scrapePage fetch now 1
        = .ok (e1 :: e2 :: e3 :: e4 :: n :: f1 :: f2 :: f3 :: f4 :: f5 :: rest) →
      PostExists st e1.hnID = true → PostExists st e2.hnID = true →
      PostExists st e3.hnID = true → PostExists st e4.hnID = true →
      PostExists st n.hnID = false →
      PostExists st f1.hnID = true → PostExists st f2.hnID = true →
      PostExists st f3.hnID = true → PostExists st f4.hnID = true →
      PostExists st f5.hnID = true →
      (ScrapeWithStrategy fetch now st .untilExisting maxPages).tr.pagesFetched = [1]
      ∧ (ScrapeWithStrategy fetch now st .untilExisting maxPages).res.newPosts = 1
      ∧ (ScrapeWithStrategy fetch now st .untilExisting maxPages).res.pagesScraped = 0
      ∧ (ScrapeWithStrategy fetch now st .untilExisting maxPages).tr.examined
        = [e1.hnID, e2.hnID, e3.hnID, e4.hnID, n.hnID,
           f1.hnID, f2.hnID, f3.hnID, f4.hnID, f5.hnID])
    ∧ (∀ (fetch : Nat → PageOutcome) (now : Int) (st : Store) (maxPages : Nat),
      2 ≤ maxPages →
      scrapePage fetch now 1 = .ok [] →
      scrapePage fetch now 2 = .ok [] →
      (ScrapeWithStrategy fetch now st .untilExisting maxPages).tr.pagesFetched = [1, 2]
      ∧ (ScrapeWithStrategy fetch now st .untilExisting maxPages).res.newPosts = 0
      ∧ (ScrapeWithStrategy fetch now st .untilExisting maxPages).tr.examined = [])
    ∧ (∀ (fetch : Nat → PageOutcome) (now : Int) (st : Store) (maxPages : Nat)
        (g1 g2 : Post),
      2 ≤ maxPages →
      scrapePage fetch now 1 = .ok [g1, g2] →
      PostExists st g1.hnID = true →
      PostExists st g2.hnID = true →
      (ScrapeWithStrategy fetch now st .untilExisting maxPages).tr.pagesFetched = [1]
      ∧ (ScrapeWithStrategy fetch now st .untilExisting maxPages).res.newPosts = 0
      ∧ (ScrapeWithStrategy fetch now st .untilExisting maxPages).res.pagesScraped = 1
      ∧ (ScrapeWithStrategy fetch now st .untilExisting maxPages).tr.examined
        = [g1.hnID, g2.hnID]) := by
  refine ⟨?_, ?_, ?_, ?_⟩
  · intro fetch now st maxPages pre d1 d2 d3 d4 d5 rest2
      hmax h1 h2 hpn hpd hpe hd1 hd2 hd3 hd4 hd5
    exact until_fiveAcrossPages fetch now st maxPages pre d1 d2 d3 d4 d5 rest2
      hmax h1 h2 hpn hpd hpe hd1 hd2 hd3 hd4 hd5
  · intro fetch now st maxPages e1 e2 e3 e4 n f1 f2 f3 f4 f5 rest
      hmax h1 he1 he2 he3 he4 hn hf1 hf2 hf3 hf4 hf5
    exact until_resetThenFive fetch now st maxPages e1 e2 e3 e4 n f1 f2 f3 f4 f5 rest
      hmax h1 he1 he2 he3 he4 hn hf1 hf2 hf3 hf4 hf5
  · intro fetch now st maxPages hmax h1 h2
    exact until_twoEmpty fetch now st maxPages hmax h1 h2
  · intro fetch now st maxPages g1 g2 hmax h1 hg1 hg2
    exact until_zeroNew fetch now st maxPages g1 g2 hmax h1 hg1 hg2

/-- Witness for C4: the four stop conditions exercised on concrete feeds
and stores. -/
theorem claim_C4_witness :
    ((ScrapeWithStrategy c4EnvA 1000000000 c4StoreA .untilExisting 3).tr.pagesFetched
        = [1, 2]
      ∧ (ScrapeWithStrategy c4EnvA 1000000000 c4StoreA .untilExisting 3).res.newPosts
        = 1
      ∧ (ScrapeWithStrategy c4EnvA 1000000000 c4StoreA .untilExisting 3).tr.examined
        = [50, 1, 2, 3, 4, 5])
    ∧ ((ScrapeWithStrategy c4EnvB 1000000000 c4StoreB .untilExisting 2).tr.pagesFetched
        = [1]
      ∧ (ScrapeWithStrategy c4EnvB 1000000000 c4StoreB .untilExisting 2).res.newPosts
        = 1
      ∧ (ScrapeWithStrategy c4EnvB 1000000000 c4StoreB .untilExisting 2).res.pagesScraped
        = 0
      ∧ (ScrapeWithStrategy c4EnvB 1000000000 c4StoreB .untilExisting 2).tr.examined
        = [1, 2, 3, 4, 50, 5, 6, 7, 8, 9])
    ∧ ((ScrapeWithStrategy c4EnvC 1000000000 {} .untilExisting 3).tr.pagesFetched
        = [1, 2]
      ∧ (ScrapeWithStrategy c4EnvC 1000000000 {} .untilExisting 3).res.newPosts = 0
      ∧ (ScrapeWithStrategy c4EnvC 1000000000 {} .untilExisting 3).tr.examined = [])
    ∧ ((ScrapeWithStrategy c4EnvD 1000000000 c4StoreD .untilExisting 2).tr.pagesFetched
        = [1]
      ∧ (ScrapeWithStrategy c4EnvD 1000000000 c4StoreD .untilExisting 2).res.newPosts
        = 0
      ∧ (ScrapeWithStrategy c4EnvD 1000000000 c4StoreD .untilExisting 2).res.pagesScraped
        = 1
      ∧ (ScrapeWithStrategy c4EnvD 1000000000 c4StoreD .untilExisting 2).tr.examined
        = [1, 2]) := by
  refine ⟨?_, ?_, ?_, ?_⟩
  · exact claim_C4.1 c4EnvA 1000000000 c4StoreA 3 [{hnID := 50}]
      {hnID := 1} {hnID := 2} {hnID := 3} {hnID := 4} {hnID := 5}
      [{hnID := 99}] (by omega) rfl rfl (by decide) (by decide) (by decide)
      (by decide) (by decide) (by decide) (by decide) (by decide)
  · exact claim_C4.2.1 c4EnvB 1000000000 c4StoreB 2 {hnID := 1} {hnID := 2}
      {hnID := 3} {hnID := 4} {hnID := 50} {hnID := 5} {hnID := 6}
      {hnID := 7} {hnID := 8} {hnID := 9} [{hnID := 100}] (by omega) rfl
      (by decide) (by decide) (by decide) (by decide) (by decide)
      (by decide) (by decide) (by decide) (by decide) (by decide)
  · exact claim_C4.2.2.1 c4EnvC 1000000000 {} 3 (by omega) rfl rfl
  · exact claim_C4.2.2.2 c4EnvD 1000000000 c4StoreD 2 {hnID := 1} {hnID := 2}
      (by omega) rfl (by decide) (by decide)

/-- C8: `parseRelativeTime` resolves relative labels against the capture
time: a trailing " ago" is stripped; "just now" gives the current time;
"yesterday" one calendar day back; a leading "a"/"an" counts as 1;
second/minute/hour labels subtract that many seconds (so "3 hours ago" is
now minus 10800 seconds and "an hour ago" now minus 3600); day labels move
that many calendar days (so "a day ago" is one calendar day back), weeks
7 times as many; month/year labels move that many calendar months/years;
an unparseable label gives the current time — stated for every decimal
numeral `n` and each unit word. -/
theorem claim_C8 :
    (parseRelativeTime "just now" = .now
      ∧ parseRelativeTime "yesterday" = .daysAgo 1
      ∧ parseRelativeTime "3 hours ago" = .secondsAgo 10800
      ∧ parseRelativeTime "a day ago" = .daysAgo 1
      ∧ parseRelativeTime "an hour ago" = .secondsAgo 3600
      ∧ parseRelativeTime "a minute ago" = .secondsAgo 60
      ∧ parseRelativeTime "5 fortnights ago" = .now
      ∧ parseRelativeTime "" = .now)
    ∧ (∀ n : Nat,
      parseRelativeTime (String.mk (natDecimal n ++ " seconds ago".toList))
        = .secondsAgo (n : Int)
      ∧ parseRelativeTime (String.mk (natDecimal n ++ " minutes ago".toList))
        = .secondsAgo ((n : Int) * 60)
      ∧ parseRelativeTime (String.mk (natDecimal n ++ " hours ago".toList))
        = .secondsAgo ((n : Int) * 3600)
      ∧ parseRelativeTime (String.mk (natDecimal n ++ " days ago".toList))
        = .daysAgo (n : Int)
      ∧ parseRelativeTime (String.mk (natDecimal n ++ " weeks ago".toList))
        = .daysAgo ((n : Int) * 7)
      ∧ parseRelativeTime (String.mk (natDecimal n ++ " months ago".toList))
        = .monthsAgo (n : Int)
      ∧ parseRelativeTime (String.mk (natDecimal n ++ " years ago".toList))
        = .yearsAgo (n : Int)) := by
  constructor
  · exact ⟨by decide, by decide, by decide, by decide, by decide, by decide,
      by decide, by decide⟩
  · intro n
    refine ⟨?_, ?_, ?_, ?_, ?_, ?_, ?_⟩
    · exact (parseRel_numeral n "seconds".toList (by decide) (by decide)
        (by decide)).trans rfl
    · exact (parseRel_numeral n "minutes".toList (by decide) (by decide)
        (by decide)).trans rfl
    · exact (parseRel_numeral n "hours".toList (by decide) (by decide)
        (by decide)).trans rfl
    · exact (parseRel_numeral n "days".toList (by decide) (by decide)
        (by decide)).trans rfl
    · exact (parseRel_numeral n "weeks".toList (by decide) (by decide)
        (by decide)).trans rfl
    · exact (parseRel_numeral n "months".toList (by decide) (by decide)
        (by decide)).trans rfl
    · exact (parseRel_numeral n "years".toList (by decide) (by decide)
        (by decide)).trans rfl

end Scraper
